import Mathlib

/-!
Shallow embedding of the rust_matching_engine repository core
(crates/engine-core and crates/engine-protocol) together with theorems
about its order book, multi-symbol router and wire codec.

Machine integers (`u32`, `u64`) are embedded as `Nat`; the only place the
source can overflow a `u32` is the per-level quantity sum, which is
embedded with an explicit `% 2^32`.  Rust `String`s appear only as symbol
names that are cloned and compared, so a symbol is embedded as its UTF-8
byte list.
-/

/-- Order side, `src/crates/engine-core/src/side.rs`. -/
inductive Side where
  | Buy
  | Sell
deriving DecidableEq, Repr

/-- Order type (market vs limit), `src/crates/engine-core/src/order_type.rs`. -/
inductive OrderType where
  | Market
  | Limit
deriving DecidableEq, Repr

/-- A symbol is a Rust `String`, i.e. a valid-UTF-8 byte sequence; we embed it
as its byte list. -/
abbrev SymBytes := List Nat

/-- Internal order, `src/crates/engine-core/src/order.rs`. -/
structure Order where
  user_id : Nat
  user_order_id : Nat
  symbol : SymBytes
  price : Nat
  quantity : Nat
  remaining_qty : Nat
  side : Side
  order_type : OrderType
  timestamp_ns : Nat
deriving DecidableEq, Repr

/-- New-order input message, `src/crates/engine-core/src/messages.rs`. -/
structure NewOrder where
  user_id : Nat
  symbol : SymBytes
  price : Nat
  quantity : Nat
  side : Side
  user_order_id : Nat
deriving DecidableEq, Repr

/-- `NewOrder::order_type`: market iff price is zero. -/
def NewOrder.order_type (m : NewOrder) : OrderType :=
  if m.price = 0 then OrderType.Market else OrderType.Limit

/-- Cancel input message. -/
structure Cancel where
  user_id : Nat
  user_order_id : Nat
deriving DecidableEq, Repr

/-- Top-of-book query input message. -/
structure TopOfBookQuery where
  symbol : SymBytes
deriving DecidableEq, Repr

/-- Input messages consumed by the engine. -/
inductive InputMessage where
  | NewOrder (m : NewOrder)
  | Cancel (c : Cancel)
  | Flush
  | QueryTopOfBook (q : TopOfBookQuery)
deriving DecidableEq, Repr

/-- Ack output message. -/
structure Ack where
  user_id : Nat
  user_order_id : Nat
  symbol : SymBytes
deriving DecidableEq, Repr

/-- CancelAck output message. -/
structure CancelAck where
  user_id : Nat
  user_order_id : Nat
  symbol : SymBytes
deriving DecidableEq, Repr

/-- Trade output message. -/
structure Trade where
  symbol : SymBytes
  user_id_buy : Nat
  user_order_id_buy : Nat
  user_id_sell : Nat
  user_order_id_sell : Nat
  price : Nat
  quantity : Nat
deriving DecidableEq, Repr

/-- Top-of-book output message. -/
structure TopOfBook where
  symbol : SymBytes
  side : Side
  price : Nat
  total_quantity : Nat
  eliminated : Bool
deriving DecidableEq, Repr

/-- Output messages emitted by the engine. -/
inductive OutputMessage where
  | Ack (a : Ack)
  | CancelAck (c : CancelAck)
  | Trade (t : Trade)
  | TopOfBook (t : TopOfBook)
deriving DecidableEq, Repr

/-- Convenience constructor `OutputMessage::ack`. -/
def OutputMessage.ack (user_id user_order_id : Nat) (symbol : SymBytes) : OutputMessage :=
  OutputMessage.Ack ⟨user_id, user_order_id, symbol⟩

/-- Convenience constructor `OutputMessage::cancel_ack`. -/
def OutputMessage.cancel_ack (user_id user_order_id : Nat) (symbol : SymBytes) : OutputMessage :=
  OutputMessage.CancelAck ⟨user_id, user_order_id, symbol⟩

/-- Convenience constructor `OutputMessage::trade`. -/
def OutputMessage.trade (symbol : SymBytes)
    (user_id_buy user_order_id_buy user_id_sell user_order_id_sell price quantity : Nat) :
    OutputMessage :=
  OutputMessage.Trade
    ⟨symbol, user_id_buy, user_order_id_buy, user_id_sell, user_order_id_sell, price, quantity⟩

/-- Convenience constructor `OutputMessage::top_of_book` (non-eliminated). -/
def OutputMessage.top_of_book (symbol : SymBytes) (side : Side) (price total_quantity : Nat) :
    OutputMessage :=
  OutputMessage.TopOfBook ⟨symbol, side, price, total_quantity, false⟩

/-- Convenience constructor `OutputMessage::top_of_book_eliminated`. -/
def OutputMessage.top_of_book_eliminated (symbol : SymBytes) (side : Side) : OutputMessage :=
  OutputMessage.TopOfBook ⟨symbol, side, 0, 0, true⟩

/-- `Order::from_new_order`: build an internal order from a `NewOrder` and a timestamp. -/
def Order.from_new_order (msg : NewOrder) (timestamp_ns : Nat) : Order :=
  { user_id := msg.user_id
    user_order_id := msg.user_order_id
    symbol := msg.symbol
    price := msg.price
    quantity := msg.quantity
    remaining_qty := msg.quantity
    side := msg.side
    order_type := msg.order_type
    timestamp_ns := timestamp_ns }

/-- `Order::is_filled`. -/
def Order.is_filled (o : Order) : Bool :=
  o.remaining_qty == 0

/-- `Order::fill`: decrement `remaining_qty` by `min qty remaining_qty`. -/
def Order.fill (o : Order) (qty : Nat) : Order :=
  { o with remaining_qty := o.remaining_qty - min qty o.remaining_qty }

/-- Price levels of one book side, embedding `BTreeMap<u32, VecDeque<Order>>`
(`src/crates/engine-core/src/order_book.rs`).  The association list is kept
in strictly ascending key order, matching the map's sorted iteration order;
the first entry is the least key and the last entry is the greatest. -/
abbrev Levels := List (Nat × List Order)

/-- Keys of a side in their map iteration (ascending) order. -/
def levelsKeys (lv : Levels) : List Nat :=
  lv.map Prod.fst

/-- `BTreeMap::get`. -/
def levelsGet : Levels → Nat → Option (List Order)
  | [], _ => none
  | (k, q) :: rest, p => if p = k then some q else levelsGet rest p

/-- `entry(price).or_insert_with(VecDeque::new).push_back(order)`: append the
order to the FIFO at its price, creating the level (at its sorted position)
when absent. -/
def levelsPushAt : Levels → Nat → Order → Levels
  | [], p, o => [(p, [o])]
  | (k, q) :: rest, p, o =>
    if p < k then (p, [o]) :: (k, q) :: rest
    else if p = k then (k, q ++ [o]) :: rest
    else (k, q) :: levelsPushAt rest p o

/-- Per-symbol order book, `src/crates/engine-core/src/order_book.rs`. -/
structure OrderBook where
  symbol : SymBytes
  bids : Levels
  asks : Levels
  prev_best_bid_price : Nat
  prev_best_bid_qty : Nat
  prev_best_ask_price : Nat
  prev_best_ask_qty : Nat
deriving DecidableEq, Repr

/-- `OrderBook::new`. -/
def OrderBook.new (symbol : SymBytes) : OrderBook :=
  ⟨symbol, [], [], 0, 0, 0, 0⟩

/-- `OrderBook::best_bid_price`: greatest bid key (`keys().next_back()`), 0 if none. -/
def OrderBook.best_bid_price (b : OrderBook) : Nat :=
  ((levelsKeys b.bids).getLast?).getD 0

/-- `OrderBook::best_ask_price`: least ask key (`keys().next()`), 0 if none. -/
def OrderBook.best_ask_price (b : OrderBook) : Nat :=
  ((levelsKeys b.asks).head?).getD 0

/-- `OrderBook::total_quantity_at_price`: sum of `remaining_qty` over one FIFO.
The source sums in `u32`, so the sum is reduced modulo `2^32`. -/
def total_quantity_at_price (orders : List Order) : Nat :=
  ((orders.map Order.remaining_qty).sum) % 2 ^ 32

/-- Mathematical (unreduced) sum of `remaining_qty` over one FIFO, used to
state when the `u32` sum of `total_quantity_at_price` overflows. -/
def levelQtySum (orders : List Order) : Nat :=
  (orders.map Order.remaining_qty).sum

/-- `OrderBook::best_bid_quantity`. -/
def OrderBook.best_bid_quantity (b : OrderBook) : Nat :=
  match (levelsKeys b.bids).getLast? with
  | some price =>
    match levelsGet b.bids price with
    | some orders => total_quantity_at_price orders
    | none => 0
  | none => 0

/-- `OrderBook::best_ask_quantity`. -/
def OrderBook.best_ask_quantity (b : OrderBook) : Nat :=
  match (levelsKeys b.asks).head? with
  | some price =>
    match levelsGet b.asks price with
    | some orders => total_quantity_at_price orders
    | none => 0
  | none => 0

/-- Trade event construction inside `match_order`: for a Buy incoming order the
incoming order supplies the buyer fields, for a Sell incoming order the
passive order does. -/
def mkTrade (symbol : SymBytes) (incomingSide : Side) (o passive : Order) (price qty : Nat) :
    OutputMessage :=
  match incomingSide with
  | Side.Buy =>
    OutputMessage.trade symbol o.user_id o.user_order_id passive.user_id passive.user_order_id
      price qty
  | Side.Sell =>
    OutputMessage.trade symbol passive.user_id passive.user_order_id o.user_id o.user_order_id
      price qty

/-- Inner `while` of `match_order`: match the incoming order against one price
level FIFO (front first) at level price `p`.  Each step trades
`min(incoming.remaining_qty, passive.remaining_qty)`, fills both orders and
pops the passive order when it is filled.  When a partial fill leaves the
passive order resting, the traded quantity equalled the incoming remainder, so
the loop's next condition check exits with the queue still non-empty. -/
def matchAtLevel (symbol : SymBytes) (s : Side) (p : Nat) :
    Order → List Order → List OutputMessage × Order × List Order
  | o, [] => ([], o, [])
  | o, passive :: rest =>
    if o.remaining_qty = 0 then ([], o, passive :: rest)
    else
      let trade_qty := min o.remaining_qty passive.remaining_qty
      let t := mkTrade symbol s o passive p trade_qty
      let o2 := o.fill trade_qty
      let passive2 := passive.fill trade_qty
      if passive2.remaining_qty = 0 then
        let (ts, o3, rest3) := matchAtLevel symbol s p o2 rest
        (t :: ts, o3, rest3)
      else
        ([t], o2, passive2 :: rest)

/-- `can_match` test for a Buy incoming order against the best ask price:
market orders always match, a limit matches when `order.price >= best_ask`. -/
def canMatchBuy (o : Order) (best_ask_price : Nat) : Bool :=
  match o.order_type with
  | OrderType.Market => true
  | OrderType.Limit => best_ask_price ≤ o.price

/-- `can_match` test for a Sell incoming order against the best bid price. -/
def canMatchSell (o : Order) (best_bid_price : Nat) : Bool :=
  match o.order_type with
  | OrderType.Market => true
  | OrderType.Limit => o.price ≤ best_bid_price

/-- Outer matching loop of `match_order` for a Buy order: repeatedly take the
least ask level (the head of the ascending list), stop when the order is
exhausted, the side is empty or the level does not match; drained levels are
removed from the map.  When the level's FIFO is left non-empty the incoming
order was exhausted there, so the loop's next iteration breaks with the level
kept. -/
def matchBuyLoop (symbol : SymBytes) :
    Order → Levels → List OutputMessage × Order × Levels
  | o, [] => ([], o, [])
  | o, (p, q) :: rest =>
    if o.remaining_qty = 0 then ([], o, (p, q) :: rest)
    else if canMatchBuy o p then
      let (ts, o2, q2) := matchAtLevel symbol Side.Buy p o q
      if q2.isEmpty then
        let (ts2, o3, rest3) := matchBuyLoop symbol o2 rest
        (ts ++ ts2, o3, rest3)
      else (ts, o2, (p, q2) :: rest)
    else ([], o, (p, q) :: rest)

/-- Outer matching loop of `match_order` for a Sell order, expressed on the
bid levels in descending (reversed) order so that the head of the list is the
greatest bid key (`keys().next_back()`). -/
def matchSellLoopRev (symbol : SymBytes) :
    Order → Levels → List OutputMessage × Order × Levels
  | o, [] => ([], o, [])
  | o, (p, q) :: rest =>
    if o.remaining_qty = 0 then ([], o, (p, q) :: rest)
    else if canMatchSell o p then
      let (ts, o2, q2) := matchAtLevel symbol Side.Sell p o q
      if q2.isEmpty then
        let (ts2, o3, rest3) := matchSellLoopRev symbol o2 rest
        (ts ++ ts2, o3, rest3)
      else (ts, o2, (p, q2) :: rest)
    else ([], o, (p, q) :: rest)

/-- `OrderBook::match_order`: match an incoming order against the opposite
side, returning the trade events, the incoming order with its residual
quantity, and the book with consumed levels removed. -/
def OrderBook.match_order (b : OrderBook) (o : Order) :
    List OutputMessage × Order × OrderBook :=
  match o.side with
  | Side.Buy =>
    let (ts, o2, asks2) := matchBuyLoop b.symbol o b.asks
    (ts, o2, { b with asks := asks2 })
  | Side.Sell =>
    let (ts, o2, bidsRev2) := matchSellLoopRev b.symbol o b.bids.reverse
    (ts, o2, { b with bids := bidsRev2.reverse })

/-- `OrderBook::add_to_book`: rest a residual limit order at the tail of the
FIFO for its price. -/
def OrderBook.add_to_book (b : OrderBook) (o : Order) : OrderBook :=
  match o.side with
  | Side.Buy => { b with bids := levelsPushAt b.bids o.price o }
  | Side.Sell => { b with asks := levelsPushAt b.asks o.price o }

/-- `OrderBook::check_top_of_book_changes`: emit one event per side whose
`(price, qty)` differs from the cached previous value (bid first, then ask)
and update the cache for the changed sides. -/
def OrderBook.check_top_of_book_changes (b : OrderBook) :
    List OutputMessage × OrderBook :=
  let cbp := b.best_bid_price
  let cbq := b.best_bid_quantity
  let cap := b.best_ask_price
  let caq := b.best_ask_quantity
  let bidChanged := cbp != b.prev_best_bid_price || cbq != b.prev_best_bid_qty
  let askChanged := cap != b.prev_best_ask_price || caq != b.prev_best_ask_qty
  let bidMsgs : List OutputMessage :=
    if bidChanged then
      [if cbp == 0 then OutputMessage.top_of_book_eliminated b.symbol Side.Buy
       else OutputMessage.top_of_book b.symbol Side.Buy cbp cbq]
    else []
  let askMsgs : List OutputMessage :=
    if askChanged then
      [if cap == 0 then OutputMessage.top_of_book_eliminated b.symbol Side.Sell
       else OutputMessage.top_of_book b.symbol Side.Sell cap caq]
    else []
  let b2 :=
    if bidChanged then { b with prev_best_bid_price := cbp, prev_best_bid_qty := cbq } else b
  let b3 :=
    if askChanged then { b2 with prev_best_ask_price := cap, prev_best_ask_qty := caq } else b2
  (bidMsgs ++ askMsgs, b3)

/-- `OrderBook::add_order`.  `Order::from_new_order_now` reads the wall clock;
the clock reading is the explicit `ts` argument here. -/
def OrderBook.add_order (b : OrderBook) (msg : NewOrder) (ts : Nat) :
    List OutputMessage × OrderBook :=
  let order := Order.from_new_order msg ts
  let ack := OutputMessage.ack order.user_id order.user_order_id b.symbol
  let (trades, order2, b1) := b.match_order order
  let b2 :=
    if 0 < order2.remaining_qty ∧ order2.order_type = OrderType.Limit then
      b1.add_to_book order2
    else b1
  let (tobs, b3) := b2.check_top_of_book_changes
  (ack :: (trades ++ tobs), b3)

/-- Remove the first order with the given ids from one FIFO, scanning from the
front (`idx = 0` upward), or return `none` when absent. -/
def removeFirstOrder : List Order → Nat → Nat → Option (List Order)
  | [], _, _ => none
  | o :: rest, user_id, user_order_id =>
    if o.user_id == user_id && o.user_order_id == user_order_id then some rest
    else
      match removeFirstOrder rest user_id user_order_id with
      | some rest2 => some (o :: rest2)
      | none => none

/-- Helper `remove_from_side` of `OrderBook::cancel_order`: scan the levels in
ascending key order and remove the first order with matching ids.  Fidelity
note: in the source, the found path pushes the price of a now-empty level onto
`empty_prices` and then returns immediately, before the cleanup loop that
would call `levels.remove`; the level therefore stays in the map even when its
FIFO became empty, which this embedding reproduces by keeping `(p, q2)` when
`q2` is empty.  On the not-found path nothing was removed, so the cleanup loop
removes nothing. -/
def remove_from_side : Levels → Nat → Nat → Bool × Levels
  | [], _, _ => (false, [])
  | (p, q) :: rest, user_id, user_order_id =>
    match removeFirstOrder q user_id user_order_id with
    | some q2 => (true, (p, q2) :: rest)
    | none =>
      let (found, rest2) := remove_from_side rest user_id user_order_id
      (found, (p, q) :: rest2)

/-- `OrderBook::cancel_order`: try the bids then the asks, always emit a
`CancelAck`, and run top-of-book change detection when an order was removed. -/
def OrderBook.cancel_order (b : OrderBook) (user_id user_order_id : Nat) :
    List OutputMessage × OrderBook :=
  let (foundBid, bids2) := remove_from_side b.bids user_id user_order_id
  let (found, b1) :=
    if foundBid then (true, { b with bids := bids2 })
    else
      let (foundAsk, asks2) := remove_from_side b.asks user_id user_order_id
      (foundAsk, { b with asks := asks2 })
  let ack := OutputMessage.cancel_ack user_id user_order_id b.symbol
  if found then
    let (tobs, b2) := b1.check_top_of_book_changes
    (ack :: tobs, b2)
  else ([ack], b1)

/-- `OrderBook::flush`: clear both sides and reset the TOB cache. -/
def OrderBook.flush (b : OrderBook) : OrderBook :=
  { b with
    bids := []
    asks := []
    prev_best_bid_price := 0
    prev_best_bid_qty := 0
    prev_best_ask_price := 0
    prev_best_ask_qty := 0 }

/-- Association-list lookup, embedding `HashMap::get` (first entry with the
key; keys are unique by construction of `alPut` and `alDel`). -/
def alGet {α β : Type} [DecidableEq α] : List (α × β) → α → Option β
  | [], _ => none
  | (k, v) :: rest, key => if key = k then some v else alGet rest key

/-- Association-list insert-or-replace, embedding `HashMap::insert`. -/
def alPut {α β : Type} [DecidableEq α] : List (α × β) → α → β → List (α × β)
  | [], key, v => [(key, v)]
  | (k, w) :: rest, key, v =>
    if key = k then (k, v) :: rest else (k, w) :: alPut rest key v

/-- Association-list removal, embedding `HashMap::remove`. -/
def alDel {α β : Type} [DecidableEq α] : List (α × β) → α → List (α × β)
  | [], _ => []
  | (k, w) :: rest, key => if key = k then rest else (k, w) :: alDel rest key

/-- Multi-symbol matching engine, `src/crates/engine-core/src/matching_engine.rs`:
books keyed by symbol plus the cross-book `(user_id, user_order_id) → symbol`
index used to route cancels. -/
structure MatchingEngine where
  order_books : List (SymBytes × OrderBook)
  order_to_symbol : List ((Nat × Nat) × SymBytes)
deriving DecidableEq, Repr

/-- `MatchingEngine::new`. -/
def MatchingEngine.new : MatchingEngine :=
  ⟨[], []⟩

/-- Byte list of the `"<unknown>"` symbol used for unroutable cancels. -/
def unknownSymbol : SymBytes :=
  [60, 117, 110, 107, 110, 111, 119, 110, 62]

/-- `MatchingEngine::process_new_order`: get or create the book, record the
order's symbol in the cross-book index, delegate to `OrderBook::add_order`. -/
def MatchingEngine.process_new_order (e : MatchingEngine) (msg : NewOrder) (ts : Nat) :
    List OutputMessage × MatchingEngine :=
  let book := (alGet e.order_books msg.symbol).getD (OrderBook.new msg.symbol)
  let index2 := alPut e.order_to_symbol (msg.user_id, msg.user_order_id) msg.symbol
  let (outs, book2) := book.add_order msg ts
  (outs, { order_books := alPut e.order_books msg.symbol book2, order_to_symbol := index2 })

/-- `MatchingEngine::process_cancel`: route via the cross-book index; an
unknown key yields a single `CancelAck` with symbol `"<unknown>"` and no state
change; a known key delegates to the book (defensively acking when the book is
missing) and then drops the index entry. -/
def MatchingEngine.process_cancel (e : MatchingEngine) (msg : Cancel) :
    List OutputMessage × MatchingEngine :=
  let key := (msg.user_id, msg.user_order_id)
  match alGet e.order_to_symbol key with
  | none =>
    ([OutputMessage.cancel_ack msg.user_id msg.user_order_id unknownSymbol], e)
  | some symbol =>
    match alGet e.order_books symbol with
    | some book =>
      let (outs, book2) := book.cancel_order msg.user_id msg.user_order_id
      (outs,
       { order_books := alPut e.order_books symbol book2
         order_to_symbol := alDel e.order_to_symbol key })
    | none =>
      ([OutputMessage.cancel_ack msg.user_id msg.user_order_id symbol],
       { e with order_to_symbol := alDel e.order_to_symbol key })

/-- `MatchingEngine::process_flush`: clear all books and the index. -/
def MatchingEngine.process_flush (_e : MatchingEngine) :
    List OutputMessage × MatchingEngine :=
  ([], MatchingEngine.new)

/-- `MatchingEngine::process_query_top_of_book`: snapshot the book's current
top of book (both sides zero when the book is absent) and emit a bid event
then an ask event, eliminated when the side's best price is zero.  The book
state, in particular its TOB cache, is not touched. -/
def MatchingEngine.process_query_top_of_book (e : MatchingEngine) (query : TopOfBookQuery) :
    List OutputMessage × MatchingEngine :=
  let symbol := query.symbol
  let snap :=
    match alGet e.order_books symbol with
    | some book =>
      (book.best_bid_price, book.best_bid_quantity, book.best_ask_price, book.best_ask_quantity)
    | none => (0, 0, 0, 0)
  let bidMsg :=
    if snap.1 == 0 then OutputMessage.top_of_book_eliminated symbol Side.Buy
    else OutputMessage.top_of_book symbol Side.Buy snap.1 snap.2.1
  let askMsg :=
    if snap.2.2.1 == 0 then OutputMessage.top_of_book_eliminated symbol Side.Sell
    else OutputMessage.top_of_book symbol Side.Sell snap.2.2.1 snap.2.2.2
  ([bidMsg, askMsg], e)

/-- `MatchingEngine::process_message`.  The wall-clock reading taken for a new
order (`Order::from_new_order_now`) is the explicit `ts` argument. -/
def MatchingEngine.process_message (e : MatchingEngine) (msg : InputMessage) (ts : Nat) :
    List OutputMessage × MatchingEngine :=
  match msg with
  | InputMessage.NewOrder m => e.process_new_order m ts
  | InputMessage.Cancel c => e.process_cancel c
  | InputMessage.Flush => e.process_flush
  | InputMessage.QueryTopOfBook q => e.process_query_top_of_book q

/-- Run the engine over a list of input messages; the clock readings of the
successive `process_message` calls are `ts i, ts (i+1), ...`. -/
def runEngineFrom (ts : Nat → Nat) :
    MatchingEngine → Nat → List InputMessage → List OutputMessage × MatchingEngine
  | e, _, [] => ([], e)
  | e, i, m :: rest =>
    let (outs, e2) := e.process_message m (ts i)
    let (outs2, e3) := runEngineFrom ts e2 (i + 1) rest
    (outs ++ outs2, e3)

/-- One operation on a single `OrderBook` (the quiescent points of claims about
book invariants lie between these). -/
inductive BookOp where
  | add (msg : NewOrder) (ts : Nat)
  | cancel (user_id user_order_id : Nat)
  | flushOp
deriving DecidableEq, Repr

/-- Run a sequence of operations on one order book, keeping the final state. -/
def runBook : OrderBook → List BookOp → OrderBook
  | b, [] => b
  | b, BookOp.add m ts :: rest => runBook (b.add_order m ts).2 rest
  | b, BookOp.cancel u i :: rest => runBook (b.cancel_order u i).2 rest
  | b, BookOp.flushOp :: rest => runBook b.flush rest

/-- Erase the (output-irrelevant) wall-clock timestamp of an order. -/
def Order.eraseTs (o : Order) : Order :=
  { o with timestamp_ns := 0 }

/-- Erase all timestamps on one book side. -/
def levelsEraseTs (lv : Levels) : Levels :=
  lv.map fun pq => (pq.1, pq.2.map Order.eraseTs)

/-- Erase all timestamps in a book. -/
def OrderBook.eraseTs (b : OrderBook) : OrderBook :=
  { b with bids := levelsEraseTs b.bids, asks := levelsEraseTs b.asks }

/-- Erase all timestamps in the engine. -/
def MatchingEngine.eraseTs (e : MatchingEngine) : MatchingEngine :=
  { e with order_books := e.order_books.map fun sb => (sb.1, sb.2.eraseTs) }

/-- Recogniser for `Trade` outputs. -/
def isTradeMsg : OutputMessage → Bool
  | OutputMessage.Trade _ => true
  | _ => false

/-- Recogniser for `TopOfBook` outputs of one side. -/
def isTobMsg (s : Side) : OutputMessage → Bool
  | OutputMessage.TopOfBook t => t.side == s
  | _ => false

/-- Recogniser for `Ack` outputs. -/
def isAckMsg : OutputMessage → Bool
  | OutputMessage.Ack _ => true
  | _ => false

/-- Recogniser for `CancelAck` outputs. -/
def isCancelAckMsg : OutputMessage → Bool
  | OutputMessage.CancelAck _ => true
  | _ => false

/-- Shape `TopOfBook{bid}? TopOfBook{ask}?`: at most one bid event then at
most one ask event and nothing else. -/
def tobTailShape : List OutputMessage → Bool
  | [] => true
  | [x] => isTobMsg Side.Buy x || isTobMsg Side.Sell x
  | [x, y] => isTobMsg Side.Buy x && isTobMsg Side.Sell y
  | _ => false

/-- Formalisation of the claimed output contract of one `add_order` call:
`[Ack, Trade*, TopOfBook{bid}?, TopOfBook{ask}?]`. -/
def addOutputsShape : List OutputMessage → Bool
  | m :: rest => isAckMsg m && tobTailShape (rest.dropWhile isTradeMsg)
  | [] => false

/-- Formalisation of the claimed output contract of one `cancel_order` call:
`[CancelAck, TopOfBook{bid}?, TopOfBook{ask}?]`. -/
def cancelOutputsShape : List OutputMessage → Bool
  | m :: rest => isCancelAckMsg m && tobTailShape rest
  | [] => false

/-- Quantity carried by a `Trade` output (0 for other kinds). -/
def outputTradeQty : OutputMessage → Nat
  | OutputMessage.Trade t => t.quantity
  | _ => 0

/-- Specification model (spec §4.1, matching algorithm, stated in the spec's
own words for comparison with the source's `matchAtLevel`): the successive
per-fill trade quantities when an incoming remainder `inc` walks a FIFO whose
passive remainders are the list entries; each fill trades
`min(incoming.remaining_qty, passive.remaining_qty)`, decrements both, pops an
exhausted passive order, and the walk stops when the incoming order is
exhausted. -/
def specFillQtys : Nat → List Nat → List Nat
  | _, [] => []
  | inc, pq :: rest =>
    if inc = 0 then []
    else
      let tq := min inc pq
      if pq - tq = 0 then tq :: specFillQtys (inc - tq) rest
      else [tq]

/-- Strict ascending order of the price keys of one side, the `BTreeMap` key
invariant of the embedding. -/
def keysSorted (lv : Levels) : Prop :=
  (levelsKeys lv).Pairwise (· < ·)

/-- No locked or crossed book: every bid price key is strictly below every ask
price key. -/
def BookNoCross (b : OrderBook) : Prop :=
  ∀ pb ∈ levelsKeys b.bids, ∀ pa ∈ levelsKeys b.asks, pb < pa

/-- Structural well-formedness of a book used as the inductive invariant. -/
def BookWF (b : OrderBook) : Prop :=
  keysSorted b.bids ∧ keysSorted b.asks ∧ BookNoCross b

/-- Protocol errors, `src/crates/engine-protocol/src/binary_codec.rs`. -/
inductive ProtocolError where
  | Truncated
  | UnknownMessageType (t : Nat)
  | VersionMismatch (v : Nat)
  | InvalidSymbol
  | InvalidField (field : String)
deriving DecidableEq, Repr

/-- Protocol version constant, `src/crates/engine-protocol/src/wire_types.rs`. -/
def PROTOCOL_VERSION : Nat := 1

/-- Maximum symbol length on the wire. -/
def MAX_SYMBOL_LEN : Nat := 32

/-- `validate_symbol_len`: `len > 0 && len <= MAX_SYMBOL_LEN`. -/
def validate_symbol_len (len : Nat) : Bool :=
  decide (0 < len) && decide (len ≤ MAX_SYMBOL_LEN)

/-- Input wire message types. -/
inductive WireInputType where
  | NewOrder
  | Cancel
  | Flush
  | QueryTopOfBook
deriving DecidableEq, Repr

/-- Numeric id of an input wire type (`WireInputType as u8`). -/
def WireInputType.toU8 : WireInputType → Nat
  | WireInputType.NewOrder => 0
  | WireInputType.Cancel => 1
  | WireInputType.Flush => 2
  | WireInputType.QueryTopOfBook => 3

/-- `WireInputType::from_u8`. -/
def WireInputType.from_u8 (v : Nat) : Option WireInputType :=
  if v = 0 then some WireInputType.NewOrder
  else if v = 1 then some WireInputType.Cancel
  else if v = 2 then some WireInputType.Flush
  else if v = 3 then some WireInputType.QueryTopOfBook
  else none

/-- Output wire message types. -/
inductive WireOutputType where
  | Ack
  | CancelAck
  | Trade
  | TopOfBook
deriving DecidableEq, Repr

/-- Numeric id of an output wire type (`WireOutputType as u8`). -/
def WireOutputType.toU8 : WireOutputType → Nat
  | WireOutputType.Ack => 10
  | WireOutputType.CancelAck => 11
  | WireOutputType.Trade => 12
  | WireOutputType.TopOfBook => 13

/-- `WireOutputType::from_u8`. -/
def WireOutputType.from_u8 (v : Nat) : Option WireOutputType :=
  if v = 10 then some WireOutputType.Ack
  else if v = 11 then some WireOutputType.CancelAck
  else if v = 12 then some WireOutputType.Trade
  else if v = 13 then some WireOutputType.TopOfBook
  else none

/-- Byte of a buffer at an index (buffers are only indexed after a length
check, so the default is never reached on the source's paths). -/
def byteAt (buf : List Nat) (i : Nat) : Nat :=
  buf.getD i 0

/-- Slice `buf[a..b]`. -/
def listSlice (buf : List Nat) (a b : Nat) : List Nat :=
  (buf.drop a).take (b - a)

/-- `read_u32_be(&buf[off..off+4])`: big-endian u32 at an offset. -/
def readU32 (buf : List Nat) (off : Nat) : Nat :=
  2 ^ 24 * byteAt buf off + 2 ^ 16 * byteAt buf (off + 1) +
    2 ^ 8 * byteAt buf (off + 2) + byteAt buf (off + 3)

/-- `u32::to_be_bytes`: the four big-endian bytes of a `u32`. -/
def toBE32 (n : Nat) : List Nat :=
  [n / 2 ^ 24 % 256, n / 2 ^ 16 % 256, n / 2 ^ 8 % 256, n % 256]

/-- UTF-8 continuation byte (`0x80..=0xBF`). -/
def isUtf8Cont (b : Nat) : Bool :=
  decide (128 ≤ b) && decide (b ≤ 191)

/-- Validity of a byte sequence as UTF-8, the check performed by
`std::str::from_utf8` (RFC 3629: no overlong forms, no surrogates, at most
U+10FFFF). -/
def utf8Valid : List Nat → Bool
  | [] => true
  | b :: rest =>
    if b ≤ 127 then utf8Valid rest
    else if 194 ≤ b ∧ b ≤ 223 then
      match rest with
      | c1 :: r => isUtf8Cont c1 && utf8Valid r
      | [] => false
    else if b = 224 then
      match rest with
      | c1 :: c2 :: r =>
        decide (160 ≤ c1) && decide (c1 ≤ 191) && isUtf8Cont c2 && utf8Valid r
      | _ => false
    else if 225 ≤ b ∧ b ≤ 236 then
      match rest with
      | c1 :: c2 :: r => isUtf8Cont c1 && isUtf8Cont c2 && utf8Valid r
      | _ => false
    else if b = 237 then
      match rest with
      | c1 :: c2 :: r =>
        decide (128 ≤ c1) && decide (c1 ≤ 159) && isUtf8Cont c2 && utf8Valid r
      | _ => false
    else if 238 ≤ b ∧ b ≤ 239 then
      match rest with
      | c1 :: c2 :: r => isUtf8Cont c1 && isUtf8Cont c2 && utf8Valid r
      | _ => false
    else if b = 240 then
      match rest with
      | c1 :: c2 :: c3 :: r =>
        decide (144 ≤ c1) && decide (c1 ≤ 191) && isUtf8Cont c2 && isUtf8Cont c3 && utf8Valid r
      | _ => false
    else if 241 ≤ b ∧ b ≤ 243 then
      match rest with
      | c1 :: c2 :: c3 :: r =>
        isUtf8Cont c1 && isUtf8Cont c2 && isUtf8Cont c3 && utf8Valid r
      | _ => false
    else if b = 244 then
      match rest with
      | c1 :: c2 :: c3 :: r =>
        decide (128 ≤ c1) && decide (c1 ≤ 143) && isUtf8Cont c2 && isUtf8Cont c3 && utf8Valid r
      | _ => false
    else false

/-- `std::str::from_utf8(..).map(|s| s.to_string())`: succeed with the same
bytes exactly when they are valid UTF-8. -/
def strFromUtf8 (bytes : List Nat) : Option SymBytes :=
  if utf8Valid bytes then some bytes else none

/-- Wire byte of a side (`0 = Buy`, `1 = Sell`). -/
def sideToByte : Side → Nat
  | Side.Buy => 0
  | Side.Sell => 1

/-- Decode a wire side byte, rejecting anything but 0 and 1. -/
def sideFromByte (v : Nat) : Option Side :=
  if v = 0 then some Side.Buy
  else if v = 1 then some Side.Sell
  else none

/-- `decode_new_order` (body of input type 0). -/
def decode_new_order (buf : List Nat) : Except ProtocolError InputMessage :=
  if buf.length < 22 then Except.error ProtocolError.Truncated
  else
    let user_id := readU32 buf 4
    let user_order_id := readU32 buf 8
    let price := readU32 buf 12
    let quantity := readU32 buf 16
    match sideFromByte (byteAt buf 20) with
    | none => Except.error (ProtocolError.InvalidField "side")
    | some side =>
      let symbol_len := byteAt buf 21
      if !validate_symbol_len symbol_len then Except.error ProtocolError.InvalidSymbol
      else if buf.length < 22 + symbol_len then Except.error ProtocolError.Truncated
      else
        match strFromUtf8 (listSlice buf 22 (22 + symbol_len)) with
        | none => Except.error ProtocolError.InvalidSymbol
        | some symbol =>
          if quantity = 0 then Except.error (ProtocolError.InvalidField "quantity")
          else
            Except.ok
              (InputMessage.NewOrder ⟨user_id, symbol, price, quantity, side, user_order_id⟩)

/-- `decode_cancel` (body of input type 1). -/
def decode_cancel (buf : List Nat) : Except ProtocolError InputMessage :=
  if buf.length < 12 then Except.error ProtocolError.Truncated
  else Except.ok (InputMessage.Cancel ⟨readU32 buf 4, readU32 buf 8⟩)

/-- `decode_query_tob` (body of input type 3). -/
def decode_query_tob (buf : List Nat) : Except ProtocolError InputMessage :=
  if buf.length < 5 then Except.error ProtocolError.Truncated
  else
    let symbol_len := byteAt buf 4
    if !validate_symbol_len symbol_len then Except.error ProtocolError.InvalidSymbol
    else if buf.length < 5 + symbol_len then Except.error ProtocolError.Truncated
    else
      match strFromUtf8 (listSlice buf 5 (5 + symbol_len)) with
      | none => Except.error ProtocolError.InvalidSymbol
      | some symbol => Except.ok (InputMessage.QueryTopOfBook ⟨symbol⟩)

/-- `decode_input`: header check then dispatch on the wire type. -/
def decode_input (buf : List Nat) : Except ProtocolError InputMessage :=
  if buf.length < 4 then Except.error ProtocolError.Truncated
  else
    let msg_type := byteAt buf 0
    let version := byteAt buf 1
    if version ≠ PROTOCOL_VERSION then Except.error (ProtocolError.VersionMismatch version)
    else
      match WireInputType.from_u8 msg_type with
      | none => Except.error (ProtocolError.UnknownMessageType msg_type)
      | some WireInputType.NewOrder => decode_new_order buf
      | some WireInputType.Cancel => decode_cancel buf
      | some WireInputType.Flush => Except.ok InputMessage.Flush
      | some WireInputType.QueryTopOfBook => decode_query_tob buf

/-- `encode_input_new_order`: header, fixed fields, then length-prefixed
symbol; fails on an invalid symbol length before writing anything. -/
def encode_input_new_order (n : NewOrder) : Except ProtocolError (List Nat) :=
  if n.symbol.isEmpty || decide (MAX_SYMBOL_LEN < n.symbol.length) then
    Except.error ProtocolError.InvalidSymbol
  else
    Except.ok
      ([WireInputType.NewOrder.toU8, PROTOCOL_VERSION, 0, 0]
        ++ toBE32 n.user_id ++ toBE32 n.user_order_id ++ toBE32 n.price ++ toBE32 n.quantity
        ++ [sideToByte n.side, n.symbol.length] ++ n.symbol)

/-- `encode_input_cancel`. -/
def encode_input_cancel (c : Cancel) : Except ProtocolError (List Nat) :=
  Except.ok
    ([WireInputType.Cancel.toU8, PROTOCOL_VERSION, 0, 0]
      ++ toBE32 c.user_id ++ toBE32 c.user_order_id)

/-- `encode_input_flush`. -/
def encode_input_flush : Except ProtocolError (List Nat) :=
  Except.ok [WireInputType.Flush.toU8, PROTOCOL_VERSION, 0, 0]

/-- `encode_input_query_tob`. -/
def encode_input_query_tob (q : TopOfBookQuery) : Except ProtocolError (List Nat) :=
  if q.symbol.isEmpty || decide (MAX_SYMBOL_LEN < q.symbol.length) then
    Except.error ProtocolError.InvalidSymbol
  else
    Except.ok
      ([WireInputType.QueryTopOfBook.toU8, PROTOCOL_VERSION, 0, 0]
        ++ [q.symbol.length] ++ q.symbol)

/-- `encode_input`. -/
def encode_input : InputMessage → Except ProtocolError (List Nat)
  | InputMessage.NewOrder n => encode_input_new_order n
  | InputMessage.Cancel c => encode_input_cancel c
  | InputMessage.Flush => encode_input_flush
  | InputMessage.QueryTopOfBook q => encode_input_query_tob q

/-- `encode_ack`. -/
def encode_ack (a : Ack) : Except ProtocolError (List Nat) :=
  if a.symbol.isEmpty || decide (MAX_SYMBOL_LEN < a.symbol.length) then
    Except.error ProtocolError.InvalidSymbol
  else
    Except.ok
      ([WireOutputType.Ack.toU8, PROTOCOL_VERSION, 0, 0]
        ++ toBE32 a.user_id ++ toBE32 a.user_order_id
        ++ [a.symbol.length] ++ a.symbol)

/-- `encode_cancel_ack`. -/
def encode_cancel_ack (c : CancelAck) : Except ProtocolError (List Nat) :=
  if c.symbol.isEmpty || decide (MAX_SYMBOL_LEN < c.symbol.length) then
    Except.error ProtocolError.InvalidSymbol
  else
    Except.ok
      ([WireOutputType.CancelAck.toU8, PROTOCOL_VERSION, 0, 0]
        ++ toBE32 c.user_id ++ toBE32 c.user_order_id
        ++ [c.symbol.length] ++ c.symbol)

/-- `encode_trade`. -/
def encode_trade (t : Trade) : Except ProtocolError (List Nat) :=
  if t.symbol.isEmpty || decide (MAX_SYMBOL_LEN < t.symbol.length) then
    Except.error ProtocolError.InvalidSymbol
  else
    Except.ok
      ([WireOutputType.Trade.toU8, PROTOCOL_VERSION, 0, 0]
        ++ [t.symbol.length] ++ t.symbol
        ++ toBE32 t.user_id_buy ++ toBE32 t.user_order_id_buy
        ++ toBE32 t.user_id_sell ++ toBE32 t.user_order_id_sell
        ++ toBE32 t.price ++ toBE32 t.quantity)

/-- `encode_top_of_book`. -/
def encode_top_of_book (t : TopOfBook) : Except ProtocolError (List Nat) :=
  if t.symbol.isEmpty || decide (MAX_SYMBOL_LEN < t.symbol.length) then
    Except.error ProtocolError.InvalidSymbol
  else
    Except.ok
      ([WireOutputType.TopOfBook.toU8, PROTOCOL_VERSION, 0, 0]
        ++ [t.symbol.length] ++ t.symbol
        ++ [sideToByte t.side, if t.eliminated then 1 else 0]
        ++ toBE32 t.price ++ toBE32 t.total_quantity)

/-- `encode_output`. -/
def encode_output : OutputMessage → Except ProtocolError (List Nat)
  | OutputMessage.Ack a => encode_ack a
  | OutputMessage.CancelAck c => encode_cancel_ack c
  | OutputMessage.Trade t => encode_trade t
  | OutputMessage.TopOfBook t => encode_top_of_book t

/-- `decode_ack` (body of output type 10). -/
def decode_ack (buf : List Nat) : Except ProtocolError OutputMessage :=
  if buf.length < 13 then Except.error ProtocolError.Truncated
  else
    let user_id := readU32 buf 4
    let user_order_id := readU32 buf 8
    let symbol_len := byteAt buf 12
    if !validate_symbol_len symbol_len || decide (buf.length < 13 + symbol_len) then
      Except.error ProtocolError.InvalidSymbol
    else
      match strFromUtf8 (listSlice buf 13 (13 + symbol_len)) with
      | none => Except.error ProtocolError.InvalidSymbol
      | some symbol => Except.ok (OutputMessage.Ack ⟨user_id, user_order_id, symbol⟩)

/-- `decode_cancel_ack` (body of output type 11). -/
def decode_cancel_ack (buf : List Nat) : Except ProtocolError OutputMessage :=
  if buf.length < 13 then Except.error ProtocolError.Truncated
  else
    let user_id := readU32 buf 4
    let user_order_id := readU32 buf 8
    let symbol_len := byteAt buf 12
    if !validate_symbol_len symbol_len || decide (buf.length < 13 + symbol_len) then
      Except.error ProtocolError.InvalidSymbol
    else
      match strFromUtf8 (listSlice buf 13 (13 + symbol_len)) with
      | none => Except.error ProtocolError.InvalidSymbol
      | some symbol => Except.ok (OutputMessage.CancelAck ⟨user_id, user_order_id, symbol⟩)

/-- `decode_trade` (body of output type 12). -/
def decode_trade (buf : List Nat) : Except ProtocolError OutputMessage :=
  if buf.length < 5 then Except.error ProtocolError.Truncated
  else
    let symbol_len := byteAt buf 4
    if !validate_symbol_len symbol_len then Except.error ProtocolError.InvalidSymbol
    else if buf.length < 5 + symbol_len + 4 * 6 then Except.error ProtocolError.Truncated
    else
      match strFromUtf8 (listSlice buf 5 (5 + symbol_len)) with
      | none => Except.error ProtocolError.InvalidSymbol
      | some symbol =>
        let off := 5 + symbol_len
        Except.ok
          (OutputMessage.Trade
            ⟨symbol, readU32 buf off, readU32 buf (off + 4), readU32 buf (off + 8),
             readU32 buf (off + 12), readU32 buf (off + 16), readU32 buf (off + 20)⟩)

/-- `decode_top_of_book` (body of output type 13). -/
def decode_top_of_book (buf : List Nat) : Except ProtocolError OutputMessage :=
  if buf.length < 5 then Except.error ProtocolError.Truncated
  else
    let symbol_len := byteAt buf 4
    if !validate_symbol_len symbol_len then Except.error ProtocolError.InvalidSymbol
    else if buf.length < 5 + symbol_len + 1 + 1 + 4 + 4 then Except.error ProtocolError.Truncated
    else
      match strFromUtf8 (listSlice buf 5 (5 + symbol_len)) with
      | none => Except.error ProtocolError.InvalidSymbol
      | some symbol =>
        let off := 5 + symbol_len
        match sideFromByte (byteAt buf off) with
        | none => Except.error (ProtocolError.InvalidField "side")
        | some side =>
          let eliminated := byteAt buf (off + 1) != 0
          Except.ok
            (OutputMessage.TopOfBook
              ⟨symbol, side, readU32 buf (off + 2), readU32 buf (off + 6), eliminated⟩)

/-- `decode_output`: header check then dispatch on the wire type. -/
def decode_output (buf : List Nat) : Except ProtocolError OutputMessage :=
  if buf.length < 4 then Except.error ProtocolError.Truncated
  else
    let msg_type := byteAt buf 0
    let version := byteAt buf 1
    if version ≠ PROTOCOL_VERSION then Except.error (ProtocolError.VersionMismatch version)
    else
      match WireOutputType.from_u8 msg_type with
      | none => Except.error (ProtocolError.UnknownMessageType msg_type)
      | some WireOutputType.Ack => decode_ack buf
      | some WireOutputType.CancelAck => decode_cancel_ack buf
      | some WireOutputType.Trade => decode_trade buf
      | some WireOutputType.TopOfBook => decode_top_of_book buf

/-- Well-formed symbol: the Rust `String` invariant (valid UTF-8 bytes)
together with the wire limit of 1 to 32 bytes. -/
def symbolWF (s : SymBytes) : Bool :=
  decide (1 ≤ s.length) && decide (s.length ≤ 32) && utf8Valid s

/-- Well-formed `NewOrder`: `u32` fields in range, positive quantity, and a
well-formed symbol. -/
def NewOrder.wf (m : NewOrder) : Bool :=
  decide (m.user_id < 2 ^ 32) && decide (m.user_order_id < 2 ^ 32) &&
    decide (m.price < 2 ^ 32) && decide (m.quantity < 2 ^ 32) &&
    decide (0 < m.quantity) && symbolWF m.symbol

/-- Well-formed input message (the claim's well-formed kinds). -/
def InputMessage.wf : InputMessage → Bool
  | InputMessage.NewOrder m => m.wf
  | InputMessage.Cancel c =>
    decide (c.user_id < 2 ^ 32) && decide (c.user_order_id < 2 ^ 32)
  | InputMessage.Flush => true
  | InputMessage.QueryTopOfBook q => symbolWF q.symbol

/-- Well-formed output message: `u32` fields in range and a well-formed
symbol. -/
def OutputMessage.wf : OutputMessage → Bool
  | OutputMessage.Ack a =>
    decide (a.user_id < 2 ^ 32) && decide (a.user_order_id < 2 ^ 32) && symbolWF a.symbol
  | OutputMessage.CancelAck c =>
    decide (c.user_id < 2 ^ 32) && decide (c.user_order_id < 2 ^ 32) && symbolWF c.symbol
  | OutputMessage.Trade t =>
    decide (t.user_id_buy < 2 ^ 32) && decide (t.user_order_id_buy < 2 ^ 32) &&
      decide (t.user_id_sell < 2 ^ 32) && decide (t.user_order_id_sell < 2 ^ 32) &&
      decide (t.price < 2 ^ 32) && decide (t.quantity < 2 ^ 32) && symbolWF t.symbol
  | OutputMessage.TopOfBook t =>
    decide (t.price < 2 ^ 32) && decide (t.total_quantity < 2 ^ 32) && symbolWF t.symbol

/-- UTF-8 bytes of the symbol `"IBM"`. -/
def ibmSymbol : SymBytes := [73, 66, 77]

/-- C1: claimed invariant — no empty price level may remain in the bids or
asks map; in particular a cancel that removes the last order of a level also
removes the level's key.  The code violates this: after adding a single bid at
price 10 and cancelling it, the bids map still holds price key 10 with an
empty FIFO, because `remove_from_side` returns before its empty-level cleanup
loop runs. -/
theorem cancel_last_order_leaves_empty_level :
    (runBook (OrderBook.new ibmSymbol)
      [BookOp.add ⟨1, ibmSymbol, 10, 100, Side.Buy, 1⟩ 0, BookOp.cancel 1 1]).bids
      = [(10, [])] := by
  rfl

/-- C2: claimed scenario S4 — after `NewOrder(1, IBM, 10, 100, Buy, 1)`,
`NewOrder(1, IBM, 9, 50, Buy, 2)`, `Cancel(1, 1)` the final emitted event
should be `TopOfBook(Bid, 9, 50)`.  The code instead emits
`TopOfBook(Bid, 10, 0)`: the cancelled level's key 10 stays in the map, so the
best bid price is still read as 10 with total quantity 0. -/
theorem scenario_s4_actual_outputs :
    (runEngineFrom (fun _ => 0) MatchingEngine.new 0
      [InputMessage.NewOrder ⟨1, ibmSymbol, 10, 100, Side.Buy, 1⟩,
       InputMessage.NewOrder ⟨1, ibmSymbol, 9, 50, Side.Buy, 2⟩,
       InputMessage.Cancel ⟨1, 1⟩]).1 =
      [OutputMessage.ack 1 1 ibmSymbol,
       OutputMessage.top_of_book ibmSymbol Side.Buy 10 100,
       OutputMessage.ack 1 2 ibmSymbol,
       OutputMessage.cancel_ack 1 1 ibmSymbol,
       OutputMessage.top_of_book ibmSymbol Side.Buy 10 0] := by
  rfl

/-- C8: claimed — a `QueryTopOfBook` marks each side eliminated exactly when
that side holds no resting orders.  Counterexample run: add one bid, cancel
it, query.  The bid side holds no resting orders (its only level is the empty
leftover `(10, [])`), yet the query emits a non-eliminated bid event with
price 10 and quantity 0. -/
theorem query_after_cancel_reports_stale_bid :
    ((runEngineFrom (fun _ => 0) MatchingEngine.new 0
      [InputMessage.NewOrder ⟨1, ibmSymbol, 10, 100, Side.Buy, 1⟩,
       InputMessage.Cancel ⟨1, 1⟩,
       InputMessage.QueryTopOfBook ⟨ibmSymbol⟩]).1.drop 4 =
      [OutputMessage.top_of_book ibmSymbol Side.Buy 10 0,
       OutputMessage.top_of_book_eliminated ibmSymbol Side.Sell])
    ∧ ((alGet (runEngineFrom (fun _ => 0) MatchingEngine.new 0
      [InputMessage.NewOrder ⟨1, ibmSymbol, 10, 100, Side.Buy, 1⟩,
       InputMessage.Cancel ⟨1, 1⟩,
       InputMessage.QueryTopOfBook ⟨ibmSymbol⟩]).2.order_books ibmSymbol).map
        OrderBook.bids = some [(10, [])]) := by
  exact ⟨rfl, rfl⟩

/-- C9: claimed — inputs that would make a per-level quantity sum overflow
`u32::MAX` are rejected at the protocol boundary.  The boundary only rejects
`quantity == 0`: both byte frames below decode successfully with quantity
`4294967295`, the two orders rest at the same price level, the mathematical
sum of residuals there is `8589934590 > u32::MAX`, and the `u32` sum computed
by `total_quantity_at_price` wraps to `4294967294`. -/
theorem protocol_boundary_allows_level_qty_overflow :
    decode_input
        [0, 1, 0, 0, 0, 0, 0, 1, 0, 0, 0, 1, 0, 0, 0, 10,
         255, 255, 255, 255, 0, 3, 73, 66, 77]
      = Except.ok (InputMessage.NewOrder ⟨1, ibmSymbol, 10, 4294967295, Side.Buy, 1⟩)
    ∧ decode_input
        [0, 1, 0, 0, 0, 0, 0, 2, 0, 0, 0, 2, 0, 0, 0, 10,
         255, 255, 255, 255, 0, 3, 73, 66, 77]
      = Except.ok (InputMessage.NewOrder ⟨2, ibmSymbol, 10, 4294967295, Side.Buy, 2⟩)
    ∧ ((alGet (runEngineFrom (fun _ => 0) MatchingEngine.new 0
        [InputMessage.NewOrder ⟨1, ibmSymbol, 10, 4294967295, Side.Buy, 1⟩,
         InputMessage.NewOrder ⟨2, ibmSymbol, 10, 4294967295, Side.Buy, 2⟩]).2.order_books
        ibmSymbol).map fun b => (levelsGet b.bids 10).map levelQtySum)
      = some (some 8589934590)
    ∧ 4294967295 < 8589934590
    ∧ ((alGet (runEngineFrom (fun _ => 0) MatchingEngine.new 0
        [InputMessage.NewOrder ⟨1, ibmSymbol, 10, 4294967295, Side.Buy, 1⟩,
         InputMessage.NewOrder ⟨2, ibmSymbol, 10, 4294967295, Side.Buy, 2⟩]).2.order_books
        ibmSymbol).map fun b => (levelsGet b.bids 10).map total_quantity_at_price)
      = some (some 4294967294) := by
  exact ⟨rfl, rfl, rfl, by decide, rfl⟩

theorem isTradeMsg_mkTrade (sym : SymBytes) (s : Side) (o passive : Order) (p qty : Nat) :
    isTradeMsg (mkTrade sym s o passive p qty) = true := by
  cases s <;> rfl

theorem matchAtLevel_all_trades (sym : SymBytes) (s : Side) (p : Nat) (q : List Order)
    (o : Order) : ∀ m ∈ (matchAtLevel sym s p o q).1, isTradeMsg m = true := by
  induction q generalizing o with
  | nil => simp [matchAtLevel]
  | cons passive rest ih =>
    simp only [matchAtLevel]
    split
    · simp
    · rcases hr : matchAtLevel sym s p (o.fill (min o.remaining_qty passive.remaining_qty)) rest
        with ⟨ts, o3, rest3⟩
      split
      · simp only [hr]
        intro m hm
        rcases List.mem_cons.mp hm with h | h
        · subst h; exact isTradeMsg_mkTrade ..
        · have := ih (o.fill (min o.remaining_qty passive.remaining_qty))
          rw [hr] at this
          exact this m h
      · intro m hm
        rcases List.mem_singleton.mp (by simpa using hm) with h
        subst h
        exact isTradeMsg_mkTrade ..

theorem matchBuyLoop_all_trades (sym : SymBytes) (lv : Levels) (o : Order) :
    ∀ m ∈ (matchBuyLoop sym o lv).1, isTradeMsg m = true := by
  induction lv generalizing o with
  | nil => simp [matchBuyLoop]
  | cons pq rest ih =>
    rcases pq with ⟨p, q⟩
    simp only [matchBuyLoop]
    split
    · simp
    · split
      · rcases hq : matchAtLevel sym Side.Buy p o q with ⟨ts, o2, q2⟩
        split
        · rcases hr : matchBuyLoop sym o2 rest with ⟨ts2, o3, rest3⟩
          simp only
          intro m hm
          rcases List.mem_append.mp hm with h | h
          · have := matchAtLevel_all_trades sym Side.Buy p q o
            rw [hq] at this
            exact this m h
          · have := ih o2
            rw [hr] at this
            exact this m h
        · intro m hm
          have := matchAtLevel_all_trades sym Side.Buy p q o
          rw [hq] at this
          exact this m hm
      · simp

theorem matchSellLoopRev_all_trades (sym : SymBytes) (lv : Levels) (o : Order) :
    ∀ m ∈ (matchSellLoopRev sym o lv).1, isTradeMsg m = true := by
  induction lv generalizing o with
  | nil => simp [matchSellLoopRev]
  | cons pq rest ih =>
    rcases pq with ⟨p, q⟩
    simp only [matchSellLoopRev]
    split
    · simp
    · split
      · rcases hq : matchAtLevel sym Side.Sell p o q with ⟨ts, o2, q2⟩
        split
        · rcases hr : matchSellLoopRev sym o2 rest with ⟨ts2, o3, rest3⟩
          simp only
          intro m hm
          rcases List.mem_append.mp hm with h | h
          · have := matchAtLevel_all_trades sym Side.Sell p q o
            rw [hq] at this
            exact this m h
          · have := ih o2
            rw [hr] at this
            exact this m h
        · intro m hm
          have := matchAtLevel_all_trades sym Side.Sell p q o
          rw [hq] at this
          exact this m hm
      · simp

theorem match_order_all_trades (b : OrderBook) (o : Order) :
    ∀ m ∈ (b.match_order o).1, isTradeMsg m = true := by
  unfold OrderBook.match_order
  cases o.side
  · rcases hr : matchBuyLoop b.symbol o b.asks with ⟨ts, o2, asks2⟩
    intro m hm
    have := matchBuyLoop_all_trades b.symbol b.asks o
    rw [hr] at this
    exact this m hm
  · rcases hr : matchSellLoopRev b.symbol o b.bids.reverse with ⟨ts, o2, bids2⟩
    intro m hm
    have := matchSellLoopRev_all_trades b.symbol b.bids.reverse o
    rw [hr] at this
    exact this m hm

theorem isTobMsg_bid_event (sym : SymBytes) (pr q : Nat) :
    isTobMsg Side.Buy
      (if pr == 0 then OutputMessage.top_of_book_eliminated sym Side.Buy
       else OutputMessage.top_of_book sym Side.Buy pr q) = true := by
  split <;> rfl

theorem isTobMsg_ask_event (sym : SymBytes) (pr q : Nat) :
    isTobMsg Side.Sell
      (if pr == 0 then OutputMessage.top_of_book_eliminated sym Side.Sell
       else OutputMessage.top_of_book sym Side.Sell pr q) = true := by
  split <;> rfl

theorem tobTailShape_check_top_of_book (b : OrderBook) :
    tobTailShape (b.check_top_of_book_changes).1 = true := by
  simp only [OrderBook.check_top_of_book_changes]
  repeat' split
  all_goals rfl

theorem dropWhile_append_of_all {p : OutputMessage → Bool} (l1 l2 : List OutputMessage)
    (h : ∀ x ∈ l1, p x = true) : (l1 ++ l2).dropWhile p = l2.dropWhile p := by
  induction l1 with
  | nil => simp
  | cons a l ih =>
    have ha : p a = true := h a (List.mem_cons_self a l)
    simp only [List.cons_append, List.dropWhile_cons, ha, if_true]
    exact ih fun x hx => h x (List.mem_cons_of_mem a hx)

theorem isTradeMsg_false_of_isTobMsg {s : Side} {m : OutputMessage}
    (h : isTobMsg s m = true) : isTradeMsg m = false := by
  cases m <;> simp_all [isTobMsg, isTradeMsg]

theorem dropWhile_trades_of_tobTailShape (l : List OutputMessage)
    (h : tobTailShape l = true) : l.dropWhile isTradeMsg = l := by
  match l with
  | [] => rfl
  | [x] =>
    rcases Bool.or_eq_true _ _ |>.mp (by simpa [tobTailShape] using h) with hx | hx <;>
      simp [List.dropWhile_cons, isTradeMsg_false_of_isTobMsg hx]
  | [x, y] =>
    have hx : isTobMsg Side.Buy x = true := by
      have := (Bool.and_eq_true _ _).mp (by simpa [tobTailShape] using h)
      exact this.1
    simp [List.dropWhile_cons, isTradeMsg_false_of_isTobMsg hx]
  | x :: y :: z :: rest => simp [tobTailShape] at h

/-- C5: output contract — one `add_order` call returns exactly one `Ack`
first, then zero or more `Trade` events, then at most one bid-side and then at
most one ask-side `TopOfBook` event and nothing else; one `cancel_order` call
returns exactly one `CancelAck` followed by at most one bid-side then at most
one ask-side `TopOfBook` event. -/
theorem add_order_cancel_order_output_contract :
    (∀ (b : OrderBook) (m : NewOrder) (ts : Nat),
      addOutputsShape (b.add_order m ts).1 = true)
    ∧ (∀ (b : OrderBook) (u i : Nat),
      cancelOutputsShape (b.cancel_order u i).1 = true) := by
  constructor
  · intro b m ts
    simp only [OrderBook.add_order]
    rcases hm : b.match_order (Order.from_new_order m ts) with ⟨trades, o2, b1⟩
    simp only [hm]
    have htr : ∀ x ∈ trades, isTradeMsg x = true := by
      have h := match_order_all_trades b (Order.from_new_order m ts)
      rw [hm] at h
      exact h
    rcases ht : (if 0 < o2.remaining_qty ∧ o2.order_type = OrderType.Limit
        then b1.add_to_book o2 else b1).check_top_of_book_changes with ⟨tobs, b3⟩
    simp only [ht]
    have htob : tobTailShape tobs = true := by
      have h := tobTailShape_check_top_of_book
        (if 0 < o2.remaining_qty ∧ o2.order_type = OrderType.Limit
         then b1.add_to_book o2 else b1)
      rw [ht] at h
      exact h
    simp only [addOutputsShape]
    rw [dropWhile_append_of_all _ _ htr, dropWhile_trades_of_tobTailShape _ htob, htob]
    rfl
  · intro b u i
    simp only [OrderBook.cancel_order]
    rcases h1 : remove_from_side b.bids u i with ⟨foundBid, bids2⟩
    simp only [h1]
    cases foundBid with
    | true =>
      simp only [if_true]
      rcases ht : (OrderBook.mk b.symbol bids2 b.asks b.prev_best_bid_price
          b.prev_best_bid_qty b.prev_best_ask_price
          b.prev_best_ask_qty).check_top_of_book_changes with ⟨tobs, b2⟩
      have htob : tobTailShape tobs = true := by
        have h := tobTailShape_check_top_of_book (OrderBook.mk b.symbol bids2 b.asks
          b.prev_best_bid_price b.prev_best_bid_qty b.prev_best_ask_price b.prev_best_ask_qty)
        rw [ht] at h
        exact h
      simp [ht, cancelOutputsShape, isCancelAckMsg, OutputMessage.cancel_ack, htob]
    | false =>
      rcases h2 : remove_from_side b.asks u i with ⟨foundAsk, asks2⟩
      simp only [h2]
      cases foundAsk with
      | true =>
        rcases ht : (OrderBook.mk b.symbol b.bids asks2 b.prev_best_bid_price
            b.prev_best_bid_qty b.prev_best_ask_price
            b.prev_best_ask_qty).check_top_of_book_changes with ⟨tobs, b2⟩
        have htob : tobTailShape tobs = true := by
          have h := tobTailShape_check_top_of_book (OrderBook.mk b.symbol b.bids asks2
            b.prev_best_bid_price b.prev_best_bid_qty b.prev_best_ask_price b.prev_best_ask_qty)
          rw [ht] at h
          exact h
        simp [ht, cancelOutputsShape, isCancelAckMsg, OutputMessage.cancel_ack, htob]
      | false => rfl

/-- C7: a `Cancel` whose `(user_id, user_order_id)` is absent from the
router's cross-book index produces exactly one `CancelAck` carrying the
symbol `"<unknown>"` and nothing else, and leaves the engine state (books and
index) unchanged; consequently repeating the cancel `n` times yields one such
`CancelAck` per repetition and still no state change. -/
theorem unknown_cancel_acks_and_preserves_state (e : MatchingEngine) (u i : Nat)
    (ts : Nat → Nat) (start : Nat) (h : alGet e.order_to_symbol (u, i) = none) :
    (∀ t : Nat, e.process_message (InputMessage.Cancel ⟨u, i⟩) t
        = ([OutputMessage.cancel_ack u i unknownSymbol], e))
    ∧ ∀ n : Nat, runEngineFrom ts e start (List.replicate n (InputMessage.Cancel ⟨u, i⟩))
        = (List.replicate n (OutputMessage.cancel_ack u i unknownSymbol), e) := by
  have hstep : ∀ t, e.process_message (InputMessage.Cancel ⟨u, i⟩) t
      = ([OutputMessage.cancel_ack u i unknownSymbol], e) := by
    intro t
    simp [MatchingEngine.process_message, MatchingEngine.process_cancel, h]
  refine ⟨hstep, ?_⟩
  intro n
  induction n generalizing start with
  | zero => rfl
  | succ k ihk =>
    simp [List.replicate_succ, runEngineFrom, hstep, ihk]

theorem unknown_cancel_acks_and_preserves_state_witness :
    runEngineFrom (fun _ => 0) MatchingEngine.new 0
        (List.replicate 3 (InputMessage.Cancel ⟨99, 99⟩))
      = (List.replicate 3 (OutputMessage.cancel_ack 99 99 unknownSymbol),
         MatchingEngine.new) :=
  (unknown_cancel_acks_and_preserves_state MatchingEngine.new 99 99 (fun _ => 0) 0 rfl).2 3

theorem mkTrade_is_trade_at_price (sym : SymBytes) (s : Side) (o passive : Order)
    (p qty : Nat) :
    ∃ t : Trade, mkTrade sym s o passive p qty = OutputMessage.Trade t ∧ t.price = p := by
  cases s
  · exact ⟨_, rfl, rfl⟩
  · exact ⟨_, rfl, rfl⟩

theorem outputTradeQty_mkTrade (sym : SymBytes) (s : Side) (o passive : Order)
    (p qty : Nat) : outputTradeQty (mkTrade sym s o passive p qty) = qty := by
  cases s <;> rfl

theorem fill_min_remaining (o passive : Order) :
    (o.fill (min o.remaining_qty passive.remaining_qty)).remaining_qty
      = o.remaining_qty - min o.remaining_qty passive.remaining_qty := by
  simp only [Order.fill]
  omega

theorem fill_min_remaining_passive (o passive : Order) :
    (passive.fill (min o.remaining_qty passive.remaining_qty)).remaining_qty
      = passive.remaining_qty - min o.remaining_qty passive.remaining_qty := by
  simp only [Order.fill]
  omega

theorem matchAtLevel_spec (sym : SymBytes) (s : Side) (p : Nat) (q : List Order) (o : Order) :
    (∀ m ∈ (matchAtLevel sym s p o q).1,
      ∃ t : Trade, m = OutputMessage.Trade t ∧ t.price = p)
    ∧ (matchAtLevel sym s p o q).1.map outputTradeQty
        = specFillQtys o.remaining_qty (q.map Order.remaining_qty)
    ∧ (matchAtLevel sym s p o q).2.1.remaining_qty
        + ((matchAtLevel sym s p o q).1.map outputTradeQty).sum = o.remaining_qty
    ∧ levelQtySum (matchAtLevel sym s p o q).2.2
        + ((matchAtLevel sym s p o q).1.map outputTradeQty).sum = levelQtySum q := by
  induction q generalizing o with
  | nil => simp [matchAtLevel, specFillQtys, levelQtySum]
  | cons passive rest ih =>
    by_cases h0 : o.remaining_qty = 0
    · simp [matchAtLevel, h0, specFillQtys, levelQtySum]
    · simp only [matchAtLevel, if_neg h0]
      by_cases hp : (passive.fill (min o.remaining_qty passive.remaining_qty)).remaining_qty = 0
      · rcases hr : matchAtLevel sym s p
            (o.fill (min o.remaining_qty passive.remaining_qty)) rest with ⟨ts, o3, rest3⟩
        have hIH := ih (o.fill (min o.remaining_qty passive.remaining_qty))
        rw [hr] at hIH
        rcases hIH with ⟨ihA, ihB, ihC, ihD⟩
        simp only [] at ihB ihC ihD
        simp only [if_pos hp, hr]
        have hpq : passive.remaining_qty - min o.remaining_qty passive.remaining_qty = 0 := by
          rw [fill_min_remaining_passive] at hp
          exact hp
        refine ⟨?_, ?_, ?_, ?_⟩
        · intro m hm
          rcases List.mem_cons.mp hm with h | h
          · subst h
            exact mkTrade_is_trade_at_price ..
          · exact ihA m h
        · simp only [List.map_cons, outputTradeQty_mkTrade, ihB, fill_min_remaining]
          simp [specFillQtys, h0, hpq]
        · simp only [List.map_cons, outputTradeQty_mkTrade, List.sum_cons]
          rw [fill_min_remaining] at ihC
          omega
        · simp only [List.map_cons, outputTradeQty_mkTrade, List.sum_cons]
          have hps : levelQtySum (passive :: rest)
              = passive.remaining_qty + levelQtySum rest := by
            simp [levelQtySum]
          rw [hps]
          omega
      · simp only [if_neg hp]
        have hpq : passive.remaining_qty - min o.remaining_qty passive.remaining_qty ≠ 0 := by
          rw [fill_min_remaining_passive] at hp
          exact hp
        refine ⟨?_, ?_, ?_, ?_⟩
        · intro m hm
          rcases List.mem_singleton.mp (by simpa using hm) with h
          subst h
          exact mkTrade_is_trade_at_price ..
        · simp [outputTradeQty_mkTrade, specFillQtys, h0, hpq]
        · simp only [List.map_cons, outputTradeQty_mkTrade]
          rw [fill_min_remaining]
          simp
        · have h1 : levelQtySum (passive.fill (min o.remaining_qty passive.remaining_qty) :: rest)
              = (passive.remaining_qty - min o.remaining_qty passive.remaining_qty)
                + levelQtySum rest := by
            simp [levelQtySum, fill_min_remaining_passive]
          have h2 : levelQtySum (passive :: rest)
              = passive.remaining_qty + levelQtySum rest := by
            simp [levelQtySum]
          simp only [List.map_cons, outputTradeQty_mkTrade, List.map_nil, List.sum_cons,
            List.sum_nil, h1, h2]
          omega

theorem levelsKeys_cons (p : Nat) (q : List Order) (rest : Levels) :
    levelsKeys ((p, q) :: rest) = p :: levelsKeys rest := rfl

theorem matchBuyLoop_trade_prices (sym : SymBytes) (lv : Levels) (o : Order) :
    ∀ m ∈ (matchBuyLoop sym o lv).1,
      ∃ t : Trade, m = OutputMessage.Trade t ∧ t.price ∈ levelsKeys lv := by
  induction lv generalizing o with
  | nil => simp [matchBuyLoop]
  | cons pq rest ih =>
    rcases pq with ⟨p, q⟩
    simp only [matchBuyLoop]
    split
    · simp
    · split
      · rcases hq : matchAtLevel sym Side.Buy p o q with ⟨ts, o2, q2⟩
        have hA := (matchAtLevel_spec sym Side.Buy p q o).1
        rw [hq] at hA
        split
        · rcases hr : matchBuyLoop sym o2 rest with ⟨ts2, o3, rest3⟩
          simp only
          intro m hm
          rcases List.mem_append.mp hm with h | h
          · rcases hA m h with ⟨t, hmt, hpr⟩
            refine ⟨t, hmt, ?_⟩
            rw [levelsKeys_cons, hpr]
            exact List.mem_cons_self p _
          · have hrest := ih o2
            rw [hr] at hrest
            rcases hrest m h with ⟨t, hmt, hpk⟩
            exact ⟨t, hmt, by rw [levelsKeys_cons]; exact List.mem_cons_of_mem p hpk⟩
        · intro m hm
          rcases hA m hm with ⟨t, hmt, hpr⟩
          refine ⟨t, hmt, ?_⟩
          rw [levelsKeys_cons, hpr]
          exact List.mem_cons_self p _
      · simp

theorem matchSellLoopRev_trade_prices (sym : SymBytes) (lv : Levels) (o : Order) :
    ∀ m ∈ (matchSellLoopRev sym o lv).1,
      ∃ t : Trade, m = OutputMessage.Trade t ∧ t.price ∈ levelsKeys lv := by
  induction lv generalizing o with
  | nil => simp [matchSellLoopRev]
  | cons pq rest ih =>
    rcases pq with ⟨p, q⟩
    simp only [matchSellLoopRev]
    split
    · simp
    · split
      · rcases hq : matchAtLevel sym Side.Sell p o q with ⟨ts, o2, q2⟩
        have hA := (matchAtLevel_spec sym Side.Sell p q o).1
        rw [hq] at hA
        split
        · rcases hr : matchSellLoopRev sym o2 rest with ⟨ts2, o3, rest3⟩
          simp only
          intro m hm
          rcases List.mem_append.mp hm with h | h
          · rcases hA m h with ⟨t, hmt, hpr⟩
            refine ⟨t, hmt, ?_⟩
            rw [levelsKeys_cons, hpr]
            exact List.mem_cons_self p _
          · have hrest := ih o2
            rw [hr] at hrest
            rcases hrest m h with ⟨t, hmt, hpk⟩
            exact ⟨t, hmt, by rw [levelsKeys_cons]; exact List.mem_cons_of_mem p hpk⟩
        · intro m hm
          rcases hA m hm with ⟨t, hmt, hpr⟩
          refine ⟨t, hmt, ?_⟩
          rw [levelsKeys_cons, hpr]
          exact List.mem_cons_self p _
      · simp

/-- C4: trade events carry the passive side's price and the min-fill quantity.
At one price level: every emitted trade's price is the level price where the
passive order rests, the sequence of trade quantities is exactly the spec's
iterated `min(incoming.remaining_qty, passive.remaining_qty)` fills, and the
incoming order's and the level's residual quantities each drop by exactly the
total traded quantity.  Lifted to `match_order`: every emitted trade's price
is one of the resting price keys of the opposite side (never taken from the
incoming order). -/
theorem trade_fill_correctness :
    (∀ (sym : SymBytes) (s : Side) (p : Nat) (q : List Order) (o : Order),
      (∀ m ∈ (matchAtLevel sym s p o q).1,
        ∃ t : Trade, m = OutputMessage.Trade t ∧ t.price = p)
      ∧ (matchAtLevel sym s p o q).1.map outputTradeQty
          = specFillQtys o.remaining_qty (q.map Order.remaining_qty)
      ∧ (matchAtLevel sym s p o q).2.1.remaining_qty
          + ((matchAtLevel sym s p o q).1.map outputTradeQty).sum = o.remaining_qty
      ∧ levelQtySum (matchAtLevel sym s p o q).2.2
          + ((matchAtLevel sym s p o q).1.map outputTradeQty).sum = levelQtySum q)
    ∧ ∀ (b : OrderBook) (o : Order), ∀ m ∈ (b.match_order o).1,
        ∃ t : Trade, m = OutputMessage.Trade t
          ∧ t.price ∈ levelsKeys (match o.side with
              | Side.Buy => b.asks
              | Side.Sell => b.bids) := by
  refine ⟨fun sym s p q o => matchAtLevel_spec sym s p q o, ?_⟩
  intro b o m hm
  unfold OrderBook.match_order at hm
  cases ho : o.side
  · rw [ho] at hm
    rcases hr : matchBuyLoop b.symbol o b.asks with ⟨ts, o2, asks2⟩
    rw [hr] at hm
    have h := matchBuyLoop_trade_prices b.symbol b.asks o
    rw [hr] at h
    rcases h m hm with ⟨t, hmt, hpk⟩
    exact ⟨t, hmt, hpk⟩
  · rw [ho] at hm
    rcases hr : matchSellLoopRev b.symbol o b.bids.reverse with ⟨ts, o2, bids2⟩
    rw [hr] at hm
    have h := matchSellLoopRev_trade_prices b.symbol b.bids.reverse o
    rw [hr] at h
    rcases h m hm with ⟨t, hmt, hpk⟩
    refine ⟨t, hmt, ?_⟩
    have : levelsKeys b.bids.reverse = (levelsKeys b.bids).reverse := by
      simp [levelsKeys]
    rw [this] at hpk
    exact List.mem_reverse.mp hpk

theorem trade_fill_correctness_witness :
    ∃ t : Trade,
      OutputMessage.trade ibmSymbol 1 1 2 2 10 60 = OutputMessage.Trade t ∧ t.price = 10 :=
  (trade_fill_correctness.1 ibmSymbol Side.Buy 10
      [Order.from_new_order ⟨2, ibmSymbol, 10, 60, Side.Sell, 2⟩ 0]
      (Order.from_new_order ⟨1, ibmSymbol, 10, 100, Side.Buy, 1⟩ 0)).1
    (OutputMessage.trade ibmSymbol 1 1 2 2 10 60) (by decide)

theorem eraseTs_remaining_qty (o : Order) : o.eraseTs.remaining_qty = o.remaining_qty := rfl

theorem eraseTs_order_type (o : Order) : o.eraseTs.order_type = o.order_type := rfl

theorem eraseTs_price (o : Order) : o.eraseTs.price = o.price := rfl

theorem eraseTs_side (o : Order) : o.eraseTs.side = o.side := rfl

theorem fill_eraseTs (o : Order) (q : Nat) : o.eraseTs.fill q = (o.fill q).eraseTs := by
  simp [Order.fill, Order.eraseTs]

theorem mkTrade_eraseTs (sym : SymBytes) (s : Side) (o passive : Order) (p q : Nat) :
    mkTrade sym s o.eraseTs passive.eraseTs p q = mkTrade sym s o passive p q := by
  cases s <;> rfl

theorem matchAtLevel_eraseTs (sym : SymBytes) (s : Side) (p : Nat) (q : List Order)
    (o : Order) :
    matchAtLevel sym s p o.eraseTs (q.map Order.eraseTs)
      = ((matchAtLevel sym s p o q).1, (matchAtLevel sym s p o q).2.1.eraseTs,
         (matchAtLevel sym s p o q).2.2.map Order.eraseTs) := by
  induction q generalizing o with
  | nil => simp [matchAtLevel]
  | cons passive rest ih =>
    simp only [List.map_cons, matchAtLevel, eraseTs_remaining_qty]
    by_cases h0 : o.remaining_qty = 0
    · simp [h0]
    · simp only [if_neg h0, mkTrade_eraseTs, fill_eraseTs, eraseTs_remaining_qty]
      by_cases hp : (passive.fill (min o.remaining_qty passive.remaining_qty)).remaining_qty = 0
      · rcases hr : matchAtLevel sym s p
            (o.fill (min o.remaining_qty passive.remaining_qty)) rest with ⟨ts, o3, rest3⟩
        have hih := ih (o.fill (min o.remaining_qty passive.remaining_qty))
        rw [hr] at hih
        simp [hp, hr, hih]
      · simp [hp]

theorem canMatchBuy_eraseTs (o : Order) (p : Nat) : canMatchBuy o.eraseTs p = canMatchBuy o p := rfl

theorem canMatchSell_eraseTs (o : Order) (p : Nat) :
    canMatchSell o.eraseTs p = canMatchSell o p := rfl

theorem matchBuyLoop_eraseTs (sym : SymBytes) (lv : Levels) (o : Order) :
    matchBuyLoop sym o.eraseTs (levelsEraseTs lv)
      = ((matchBuyLoop sym o lv).1, (matchBuyLoop sym o lv).2.1.eraseTs,
         levelsEraseTs (matchBuyLoop sym o lv).2.2) := by
  induction lv generalizing o with
  | nil => simp [matchBuyLoop, levelsEraseTs]
  | cons pq rest ih =>
    rcases pq with ⟨p, q⟩
    simp only [levelsEraseTs, List.map_cons, matchBuyLoop, eraseTs_remaining_qty,
      canMatchBuy_eraseTs]
    by_cases h0 : o.remaining_qty = 0
    · simp [h0, levelsEraseTs]
    · simp only [if_neg h0]
      by_cases hcm : canMatchBuy o p = true
      · rcases hq : matchAtLevel sym Side.Buy p o q with ⟨ts, o2, q2⟩
        have hmal := matchAtLevel_eraseTs sym Side.Buy p q o
        rw [hq] at hmal
        simp only [hcm, if_true, hmal, hq]
        by_cases he : q2.isEmpty = true
        · rcases hr : matchBuyLoop sym o2 rest with ⟨ts2, o3, rest3⟩
          have hih := ih o2
          rw [hr] at hih
          simp only [levelsEraseTs] at hih
          simp [he, hr, hih, List.isEmpty_iff.mp he, levelsEraseTs]
        · have he2 : (q2.map Order.eraseTs).isEmpty = false := by
            simp only [List.isEmpty_eq_true] at he ⊢
            simp [he]
          simp [he, he2, levelsEraseTs]
      · simp [hcm, levelsEraseTs]

theorem matchSellLoopRev_eraseTs (sym : SymBytes) (lv : Levels) (o : Order) :
    matchSellLoopRev sym o.eraseTs (levelsEraseTs lv)
      = ((matchSellLoopRev sym o lv).1, (matchSellLoopRev sym o lv).2.1.eraseTs,
         levelsEraseTs (matchSellLoopRev sym o lv).2.2) := by
  induction lv generalizing o with
  | nil => simp [matchSellLoopRev, levelsEraseTs]
  | cons pq rest ih =>
    rcases pq with ⟨p, q⟩
    simp only [levelsEraseTs, List.map_cons, matchSellLoopRev, eraseTs_remaining_qty,
      canMatchSell_eraseTs]
    by_cases h0 : o.remaining_qty = 0
    · simp [h0, levelsEraseTs]
    · simp only [if_neg h0]
      by_cases hcm : canMatchSell o p = true
      · rcases hq : matchAtLevel sym Side.Sell p o q with ⟨ts, o2, q2⟩
        have hmal := matchAtLevel_eraseTs sym Side.Sell p q o
        rw [hq] at hmal
        simp only [hcm, if_true, hmal, hq]
        by_cases he : q2.isEmpty = true
        · rcases hr : matchSellLoopRev sym o2 rest with ⟨ts2, o3, rest3⟩
          have hih := ih o2
          rw [hr] at hih
          simp only [levelsEraseTs] at hih
          simp [he, hr, hih, List.isEmpty_iff.mp he, levelsEraseTs]
        · have he2 : (q2.map Order.eraseTs).isEmpty = false := by
            simp only [List.isEmpty_eq_true] at he ⊢
            simp [he]
          simp [he, he2, levelsEraseTs]
      · simp [hcm, levelsEraseTs]

theorem levelsKeys_eraseTs (lv : Levels) : levelsKeys (levelsEraseTs lv) = levelsKeys lv := by
  simp [levelsKeys, levelsEraseTs]

theorem levelsGet_eraseTs (lv : Levels) (p : Nat) :
    levelsGet (levelsEraseTs lv) p = (levelsGet lv p).map (List.map Order.eraseTs) := by
  induction lv with
  | nil => simp [levelsGet, levelsEraseTs]
  | cons pq rest ih =>
    rcases pq with ⟨k, q⟩
    simp only [levelsEraseTs, List.map_cons, levelsGet]
    split
    · rfl
    · simpa [levelsEraseTs] using ih

theorem total_quantity_eraseTs (q : List Order) :
    total_quantity_at_price (q.map Order.eraseTs) = total_quantity_at_price q := by
  have h : Order.remaining_qty ∘ Order.eraseTs = Order.remaining_qty := rfl
  simp [total_quantity_at_price, List.map_map, h]

theorem best_bid_price_eraseTs (b : OrderBook) :
    b.eraseTs.best_bid_price = b.best_bid_price := by
  simp [OrderBook.best_bid_price, OrderBook.eraseTs, levelsKeys_eraseTs]

theorem best_ask_price_eraseTs (b : OrderBook) :
    b.eraseTs.best_ask_price = b.best_ask_price := by
  simp [OrderBook.best_ask_price, OrderBook.eraseTs, levelsKeys_eraseTs]

theorem best_bid_quantity_eraseTs (b : OrderBook) :
    b.eraseTs.best_bid_quantity = b.best_bid_quantity := by
  simp only [OrderBook.best_bid_quantity, OrderBook.eraseTs, levelsKeys_eraseTs]
  rcases (levelsKeys b.bids).getLast? with _ | price
  · rfl
  · simp only [levelsGet_eraseTs]
    rcases levelsGet b.bids price with _ | q
    · rfl
    · simp [total_quantity_eraseTs]

theorem best_ask_quantity_eraseTs (b : OrderBook) :
    b.eraseTs.best_ask_quantity = b.best_ask_quantity := by
  simp only [OrderBook.best_ask_quantity, OrderBook.eraseTs, levelsKeys_eraseTs]
  rcases (levelsKeys b.asks).head? with _ | price
  · rfl
  · simp only [levelsGet_eraseTs]
    rcases levelsGet b.asks price with _ | q
    · rfl
    · simp [total_quantity_eraseTs]

theorem check_top_of_book_eraseTs (b : OrderBook) :
    b.eraseTs.check_top_of_book_changes
      = ((b.check_top_of_book_changes).1, (b.check_top_of_book_changes).2.eraseTs) := by
  simp only [OrderBook.check_top_of_book_changes, best_bid_price_eraseTs,
    best_bid_quantity_eraseTs, best_ask_price_eraseTs, best_ask_quantity_eraseTs]
  have hsym : b.eraseTs.symbol = b.symbol := rfl
  have hbp : b.eraseTs.prev_best_bid_price = b.prev_best_bid_price := rfl
  have hbq : b.eraseTs.prev_best_bid_qty = b.prev_best_bid_qty := rfl
  have hap : b.eraseTs.prev_best_ask_price = b.prev_best_ask_price := rfl
  have haq : b.eraseTs.prev_best_ask_qty = b.prev_best_ask_qty := rfl
  rw [hsym, hbp, hbq, hap, haq]
  by_cases hb : (b.best_bid_price != b.prev_best_bid_price
      || b.best_bid_quantity != b.prev_best_bid_qty) = true <;>
    by_cases ha : (b.best_ask_price != b.prev_best_ask_price
      || b.best_ask_quantity != b.prev_best_ask_qty) = true <;>
    simp [hb, ha, OrderBook.eraseTs]

theorem levelsPushAt_eraseTs (lv : Levels) (p : Nat) (o : Order) :
    levelsPushAt (levelsEraseTs lv) p o.eraseTs = levelsEraseTs (levelsPushAt lv p o) := by
  induction lv with
  | nil => simp [levelsPushAt, levelsEraseTs]
  | cons pq rest ih =>
    rcases pq with ⟨k, q⟩
    simp only [levelsEraseTs, List.map_cons, levelsPushAt]
    split
    · simp [levelsEraseTs]
    · split
      · simp [levelsEraseTs]
      · simpa [levelsEraseTs] using ih

theorem add_to_book_eraseTs (b : OrderBook) (o : Order) :
    b.eraseTs.add_to_book o.eraseTs = (b.add_to_book o).eraseTs := by
  simp only [OrderBook.add_to_book, eraseTs_side]
  cases o.side <;>
    simp [OrderBook.eraseTs, eraseTs_price, levelsPushAt_eraseTs]

theorem match_order_eraseTs (b : OrderBook) (o : Order) :
    b.eraseTs.match_order o.eraseTs
      = ((b.match_order o).1, (b.match_order o).2.1.eraseTs,
         (b.match_order o).2.2.eraseTs) := by
  simp only [OrderBook.match_order, eraseTs_side]
  cases o.side
  · rcases hr : matchBuyLoop b.symbol o b.asks with ⟨ts, o2, asks2⟩
    have h := matchBuyLoop_eraseTs b.symbol b.asks o
    rw [hr] at h
    have hasks : b.eraseTs.asks = levelsEraseTs b.asks := rfl
    have hsym : b.eraseTs.symbol = b.symbol := rfl
    rw [hsym, hasks, h]
    simp [OrderBook.eraseTs]
  · rcases hr : matchSellLoopRev b.symbol o b.bids.reverse with ⟨ts, o2, bids2⟩
    have h := matchSellLoopRev_eraseTs b.symbol b.bids.reverse o
    rw [hr] at h
    have hbids : b.eraseTs.bids = levelsEraseTs b.bids := rfl
    have hsym : b.eraseTs.symbol = b.symbol := rfl
    have hrev : levelsEraseTs b.bids.reverse = (levelsEraseTs b.bids).reverse := by
      simp [levelsEraseTs]
    rw [hsym, hbids, ← hrev, h]
    simp [OrderBook.eraseTs, levelsEraseTs]

theorem add_order_eraseTs (b : OrderBook) (m : NewOrder) (ts : Nat) :
    b.eraseTs.add_order m 0
      = ((b.add_order m ts).1, (b.add_order m ts).2.eraseTs) := by
  simp only [OrderBook.add_order]
  have hord : Order.from_new_order m 0 = (Order.from_new_order m ts).eraseTs := rfl
  rw [hord]
  rcases hm : b.match_order (Order.from_new_order m ts) with ⟨trades, o2, b1⟩
  have hmo := match_order_eraseTs b (Order.from_new_order m ts)
  rw [hm] at hmo
  try simp only [] at hmo
  rw [hmo]
  simp only [eraseTs_remaining_qty, eraseTs_order_type]
  have hu : (Order.from_new_order m ts).eraseTs.user_id
      = (Order.from_new_order m ts).user_id := rfl
  have hi : (Order.from_new_order m ts).eraseTs.user_order_id
      = (Order.from_new_order m ts).user_order_id := rfl
  have hs : b.eraseTs.symbol = b.symbol := rfl
  rw [hu, hi, hs]
  by_cases hc : 0 < o2.remaining_qty ∧ o2.order_type = OrderType.Limit
  · rw [if_pos hc, if_pos hc, add_to_book_eraseTs]
    rcases ht : (b1.add_to_book o2).check_top_of_book_changes with ⟨tobs, b3⟩
    have hct := check_top_of_book_eraseTs (b1.add_to_book o2)
    rw [ht] at hct
    try simp only [] at hct
    rw [hct]
  · rw [if_neg hc, if_neg hc]
    rcases ht : b1.check_top_of_book_changes with ⟨tobs, b3⟩
    have hct := check_top_of_book_eraseTs b1
    rw [ht] at hct
    try simp only [] at hct
    rw [hct]

theorem removeFirstOrder_eraseTs (q : List Order) (u i : Nat) :
    removeFirstOrder (q.map Order.eraseTs) u i
      = (removeFirstOrder q u i).map (List.map Order.eraseTs) := by
  induction q with
  | nil => simp [removeFirstOrder]
  | cons o rest ih =>
    simp only [List.map_cons, removeFirstOrder]
    have hu : o.eraseTs.user_id = o.user_id := rfl
    have hi : o.eraseTs.user_order_id = o.user_order_id := rfl
    rw [hu, hi]
    split
    · rfl
    · rw [ih]
      rcases removeFirstOrder rest u i with _ | q2 <;> rfl

theorem remove_from_side_eraseTs (lv : Levels) (u i : Nat) :
    remove_from_side (levelsEraseTs lv) u i
      = ((remove_from_side lv u i).1, levelsEraseTs (remove_from_side lv u i).2) := by
  induction lv with
  | nil => simp [remove_from_side, levelsEraseTs]
  | cons pq rest ih =>
    rcases pq with ⟨p, q⟩
    simp only [levelsEraseTs, List.map_cons, remove_from_side, removeFirstOrder_eraseTs]
    rcases hro : removeFirstOrder q u i with _ | q2
    · simp only [Option.map]
      rcases hr : remove_from_side rest u i with ⟨f, rest2⟩
      have hih := ih
      rw [hr] at hih
      simp only [levelsEraseTs] at hih
      simp [hr, hih, levelsEraseTs]
    · simp [levelsEraseTs]

theorem cancel_order_eraseTs (b : OrderBook) (u i : Nat) :
    b.eraseTs.cancel_order u i
      = ((b.cancel_order u i).1, (b.cancel_order u i).2.eraseTs) := by
  simp only [OrderBook.cancel_order]
  have hbids : b.eraseTs.bids = levelsEraseTs b.bids := rfl
  have hasks : b.eraseTs.asks = levelsEraseTs b.asks := rfl
  have hsym : b.eraseTs.symbol = b.symbol := rfl
  rw [hbids, hasks, hsym, remove_from_side_eraseTs, remove_from_side_eraseTs]
  rcases hb : remove_from_side b.bids u i with ⟨fb, bids2⟩
  rcases ha : remove_from_side b.asks u i with ⟨fa, asks2⟩
  cases fb with
  | true =>
    simp only [if_true]
    rcases ht : (OrderBook.mk b.symbol bids2 b.asks b.prev_best_bid_price b.prev_best_bid_qty
        b.prev_best_ask_price b.prev_best_ask_qty).check_top_of_book_changes with ⟨tobs, b3⟩
    have hct := check_top_of_book_eraseTs (OrderBook.mk b.symbol bids2 b.asks
        b.prev_best_bid_price b.prev_best_bid_qty b.prev_best_ask_price b.prev_best_ask_qty)
    rw [ht] at hct
    try simp only [] at hct
    simp only [OrderBook.eraseTs, levelsEraseTs] at hct ⊢
    rw [hct]
  | false =>
    cases fa with
    | true =>
      simp only [if_true, Bool.false_eq_true, if_false]
      rcases ht : (OrderBook.mk b.symbol b.bids asks2 b.prev_best_bid_price b.prev_best_bid_qty
          b.prev_best_ask_price b.prev_best_ask_qty).check_top_of_book_changes with ⟨tobs, b3⟩
      have hct := check_top_of_book_eraseTs (OrderBook.mk b.symbol b.bids asks2
          b.prev_best_bid_price b.prev_best_bid_qty b.prev_best_ask_price b.prev_best_ask_qty)
      rw [ht] at hct
      try simp only [] at hct
      simp only [OrderBook.eraseTs, levelsEraseTs] at hct ⊢
      rw [hct]
    | false =>
      simp [OrderBook.eraseTs, levelsEraseTs]

theorem flush_eraseTs (b : OrderBook) : b.eraseTs.flush = b.flush.eraseTs := rfl

theorem alGet_map_val {α β γ : Type} [DecidableEq α] (f : β → γ) (l : List (α × β)) (k : α) :
    alGet (l.map fun kv => (kv.1, f kv.2)) k = (alGet l k).map f := by
  induction l with
  | nil => rfl
  | cons kv rest ih =>
    rcases kv with ⟨k1, v⟩
    simp only [List.map_cons, alGet]
    split
    · rfl
    · exact ih

theorem alPut_map_val {α β γ : Type} [DecidableEq α] (f : β → γ) (l : List (α × β))
    (k : α) (v : β) :
    alPut (l.map fun kv => (kv.1, f kv.2)) k (f v)
      = (alPut l k v).map fun kv => (kv.1, f kv.2) := by
  induction l with
  | nil => rfl
  | cons kv rest ih =>
    rcases kv with ⟨k1, w⟩
    simp only [List.map_cons, alPut]
    split
    · rfl
    · simp only [List.map_cons]
      rw [ih]

theorem process_new_order_eraseTs (e : MatchingEngine) (m : NewOrder) (ts : Nat) :
    e.eraseTs.process_new_order m 0
      = ((e.process_new_order m ts).1, (e.process_new_order m ts).2.eraseTs) := by
  simp only [MatchingEngine.process_new_order]
  have hbooks : e.eraseTs.order_books = e.order_books.map fun sb => (sb.1, sb.2.eraseTs) := rfl
  have hidx : e.eraseTs.order_to_symbol = e.order_to_symbol := rfl
  rw [hbooks, hidx, alGet_map_val]
  have hnew : OrderBook.new m.symbol = (OrderBook.new m.symbol).eraseTs := rfl
  conv_lhs => rw [hnew, Option.getD_map]
  rw [add_order_eraseTs]
  simp only [MatchingEngine.eraseTs]
  rw [alPut_map_val]

theorem process_cancel_eraseTs (e : MatchingEngine) (c : Cancel) :
    e.eraseTs.process_cancel c
      = ((e.process_cancel c).1, (e.process_cancel c).2.eraseTs) := by
  simp only [MatchingEngine.process_cancel]
  have hidx : e.eraseTs.order_to_symbol = e.order_to_symbol := rfl
  have hbooks : e.eraseTs.order_books = e.order_books.map fun sb => (sb.1, sb.2.eraseTs) := rfl
  rw [hidx, hbooks]
  rcases hg : alGet e.order_to_symbol (c.user_id, c.user_order_id) with _ | sym
  · rfl
  · try simp only []
    rw [alGet_map_val]
    rcases hgb : alGet e.order_books sym with _ | book
    · simp only [Option.map, MatchingEngine.eraseTs]
    · simp only [Option.map]
      rw [cancel_order_eraseTs]
      rcases hco : book.cancel_order c.user_id c.user_order_id with ⟨outs, book2⟩
      simp only [MatchingEngine.eraseTs]
      rw [alPut_map_val]

theorem process_query_eraseTs (e : MatchingEngine) (q : TopOfBookQuery) :
    e.eraseTs.process_query_top_of_book q
      = ((e.process_query_top_of_book q).1, (e.process_query_top_of_book q).2.eraseTs) := by
  simp only [MatchingEngine.process_query_top_of_book]
  have hbooks : e.eraseTs.order_books = e.order_books.map fun sb => (sb.1, sb.2.eraseTs) := rfl
  rw [hbooks, alGet_map_val]
  rcases alGet e.order_books q.symbol with _ | book
  · rfl
  · simp only [Option.map]
    rw [best_bid_price_eraseTs, best_bid_quantity_eraseTs, best_ask_price_eraseTs,
      best_ask_quantity_eraseTs]

theorem process_message_eraseTs (e : MatchingEngine) (m : InputMessage) (ts : Nat) :
    e.eraseTs.process_message m 0
      = ((e.process_message m ts).1, (e.process_message m ts).2.eraseTs) := by
  cases m with
  | NewOrder n => exact process_new_order_eraseTs e n ts
  | Cancel c => exact process_cancel_eraseTs e c
  | Flush => rfl
  | QueryTopOfBook q => exact process_query_eraseTs e q

theorem runEngineFrom_eraseTs (msgs : List InputMessage) (ts1 ts2 : Nat → Nat)
    (e1 e2 : MatchingEngine) (i j : Nat) (h : e1.eraseTs = e2.eraseTs) :
    (runEngineFrom ts1 e1 i msgs).1 = (runEngineFrom ts2 e2 j msgs).1
    ∧ (runEngineFrom ts1 e1 i msgs).2.eraseTs = (runEngineFrom ts2 e2 j msgs).2.eraseTs := by
  induction msgs generalizing e1 e2 i j with
  | nil => exact ⟨rfl, h⟩
  | cons m rest ih =>
    simp only [runEngineFrom]
    rcases h1 : e1.process_message m (ts1 i) with ⟨outs1, e1b⟩
    rcases h2 : e2.process_message m (ts2 j) with ⟨outs2, e2b⟩
    have k1 := process_message_eraseTs e1 m (ts1 i)
    have k2 := process_message_eraseTs e2 m (ts2 j)
    rw [h1] at k1
    rw [h2] at k2
    rw [h] at k1
    have hpair := k1.symm.trans k2
    have houts : outs1 = outs2 := congrArg Prod.fst hpair
    have hstates : e1b.eraseTs = e2b.eraseTs := congrArg Prod.snd hpair
    have hih := ih e1b e2b (i + 1) (j + 1) hstates
    rcases hr1 : runEngineFrom ts1 e1b (i + 1) rest with ⟨os1, ee1⟩
    rcases hr2 : runEngineFrom ts2 e2b (j + 1) rest with ⟨os2, ee2⟩
    rw [hr1, hr2] at hih
    have hos : os1 = os2 := hih.1
    have hee : ee1.eraseTs = ee2.eraseTs := hih.2
    exact ⟨by rw [houts, hos], hee⟩

/-- C10: the engine is deterministic — two runs of the same input sequence
from a fresh engine produce identical output sequences whatever wall-clock
readings (`Order::from_new_order_now` timestamps) the two runs observe; the
timestamp influences no output field and no matching decision. -/
theorem engine_outputs_clock_independent (msgs : List InputMessage) (ts1 ts2 : Nat → Nat) :
    (runEngineFrom ts1 MatchingEngine.new 0 msgs).1
      = (runEngineFrom ts2 MatchingEngine.new 0 msgs).1 :=
  (runEngineFrom_eraseTs msgs ts1 ts2 MatchingEngine.new MatchingEngine.new 0 0 rfl).1

theorem matchAtLevel_queue_nonempty_exhausted (sym : SymBytes) (s : Side) (p : Nat)
    (q : List Order) (o : Order) :
    (matchAtLevel sym s p o q).2.2 ≠ [] → (matchAtLevel sym s p o q).2.1.remaining_qty = 0 := by
  induction q generalizing o with
  | nil => simp [matchAtLevel]
  | cons passive rest ih =>
    simp only [matchAtLevel]
    by_cases h0 : o.remaining_qty = 0
    · simp [h0]
    · simp only [if_neg h0]
      by_cases hp : (passive.fill (min o.remaining_qty passive.remaining_qty)).remaining_qty = 0
      · rcases hr : matchAtLevel sym s p
            (o.fill (min o.remaining_qty passive.remaining_qty)) rest with ⟨ts, o3, rest3⟩
        have hih := ih (o.fill (min o.remaining_qty passive.remaining_qty))
        rw [hr] at hih
        simp only [if_pos hp, hr]
        exact hih
      · simp only [if_neg hp]
        intro _
        rw [fill_min_remaining]
        rw [fill_min_remaining_passive] at hp
        omega

theorem matchAtLevel_preserves_order (sym : SymBytes) (s : Side) (p : Nat) (q : List Order)
    (o : Order) :
    (matchAtLevel sym s p o q).2.1.side = o.side
    ∧ (matchAtLevel sym s p o q).2.1.price = o.price
    ∧ (matchAtLevel sym s p o q).2.1.order_type = o.order_type := by
  induction q generalizing o with
  | nil => simp [matchAtLevel]
  | cons passive rest ih =>
    simp only [matchAtLevel]
    by_cases h0 : o.remaining_qty = 0
    · simp [h0]
    · simp only [if_neg h0]
      by_cases hp : (passive.fill (min o.remaining_qty passive.remaining_qty)).remaining_qty = 0
      · rcases hr : matchAtLevel sym s p
            (o.fill (min o.remaining_qty passive.remaining_qty)) rest with ⟨ts, o3, rest3⟩
        have hih := ih (o.fill (min o.remaining_qty passive.remaining_qty))
        rw [hr] at hih
        simp only [if_pos hp, hr]
        simpa [Order.fill] using hih
      · have hp2 : passive.remaining_qty - min o.remaining_qty passive.remaining_qty ≠ 0 := by
          rw [fill_min_remaining_passive] at hp
          exact hp
        simp [Order.fill, hp2]

theorem matchBuyLoop_preserves_order (sym : SymBytes) (lv : Levels) (o : Order) :
    (matchBuyLoop sym o lv).2.1.side = o.side
    ∧ (matchBuyLoop sym o lv).2.1.price = o.price
    ∧ (matchBuyLoop sym o lv).2.1.order_type = o.order_type := by
  induction lv generalizing o with
  | nil => simp [matchBuyLoop]
  | cons pq rest ih =>
    rcases pq with ⟨p, q⟩
    simp only [matchBuyLoop]
    split
    · simp
    · split
      · rcases hq : matchAtLevel sym Side.Buy p o q with ⟨ts, o2, q2⟩
        have hlev := matchAtLevel_preserves_order sym Side.Buy p q o
        rw [hq] at hlev
        split
        · rcases hr : matchBuyLoop sym o2 rest with ⟨ts2, o3, rest3⟩
          have hih := ih o2
          rw [hr] at hih
          simp only []
          exact ⟨hih.1.trans hlev.1, hih.2.1.trans hlev.2.1, hih.2.2.trans hlev.2.2⟩
        · exact hlev
      · simp

theorem matchSellLoopRev_preserves_order (sym : SymBytes) (lv : Levels) (o : Order) :
    (matchSellLoopRev sym o lv).2.1.side = o.side
    ∧ (matchSellLoopRev sym o lv).2.1.price = o.price
    ∧ (matchSellLoopRev sym o lv).2.1.order_type = o.order_type := by
  induction lv generalizing o with
  | nil => simp [matchSellLoopRev]
  | cons pq rest ih =>
    rcases pq with ⟨p, q⟩
    simp only [matchSellLoopRev]
    split
    · simp
    · split
      · rcases hq : matchAtLevel sym Side.Sell p o q with ⟨ts, o2, q2⟩
        have hlev := matchAtLevel_preserves_order sym Side.Sell p q o
        rw [hq] at hlev
        split
        · rcases hr : matchSellLoopRev sym o2 rest with ⟨ts2, o3, rest3⟩
          have hih := ih o2
          rw [hr] at hih
          simp only []
          exact ⟨hih.1.trans hlev.1, hih.2.1.trans hlev.2.1, hih.2.2.trans hlev.2.2⟩
        · exact hlev
      · simp

theorem matchBuyLoop_keys_suffix (sym : SymBytes) (lv : Levels) (o : Order) :
    levelsKeys (matchBuyLoop sym o lv).2.2 <:+ levelsKeys lv := by
  induction lv generalizing o with
  | nil => simp [matchBuyLoop]
  | cons pq rest ih =>
    rcases pq with ⟨p, q⟩
    simp only [matchBuyLoop]
    split
    · exact List.suffix_refl _
    · split
      · rcases hq : matchAtLevel sym Side.Buy p o q with ⟨ts, o2, q2⟩
        split
        · rcases hr : matchBuyLoop sym o2 rest with ⟨ts2, o3, rest3⟩
          have hih := ih o2
          rw [hr] at hih
          simp only []
          exact hih.trans (List.suffix_cons p (levelsKeys rest))
        · exact List.suffix_refl _
      · exact List.suffix_refl _

theorem matchSellLoopRev_keys_suffix (sym : SymBytes) (lv : Levels) (o : Order) :
    levelsKeys (matchSellLoopRev sym o lv).2.2 <:+ levelsKeys lv := by
  induction lv generalizing o with
  | nil => simp [matchSellLoopRev]
  | cons pq rest ih =>
    rcases pq with ⟨p, q⟩
    simp only [matchSellLoopRev]
    split
    · exact List.suffix_refl _
    · split
      · rcases hq : matchAtLevel sym Side.Sell p o q with ⟨ts, o2, q2⟩
        split
        · rcases hr : matchSellLoopRev sym o2 rest with ⟨ts2, o3, rest3⟩
          have hih := ih o2
          rw [hr] at hih
          simp only []
          exact hih.trans (List.suffix_cons p (levelsKeys rest))
        · exact List.suffix_refl _
      · exact List.suffix_refl _

theorem matchBuyLoop_exit (sym : SymBytes) (lv : Levels) (o : Order) (p2 : Nat)
    (q2 : List Order) (rest2 : Levels)
    (hres : (matchBuyLoop sym o lv).2.2 = (p2, q2) :: rest2)
    (hrem : (matchBuyLoop sym o lv).2.1.remaining_qty ≠ 0) :
    canMatchBuy (matchBuyLoop sym o lv).2.1 p2 = false := by
  induction lv generalizing o with
  | nil => simp [matchBuyLoop] at hres
  | cons pq rest ih =>
    rcases pq with ⟨p, q⟩
    by_cases h0 : o.remaining_qty = 0
    · rw [matchBuyLoop, if_pos h0] at hrem
      exact absurd h0 hrem
    · by_cases hcm : canMatchBuy o p = true
      · rcases hq : matchAtLevel sym Side.Buy p o q with ⟨ts, o2, q2b⟩
        by_cases he : q2b.isEmpty = true
        · rcases hr : matchBuyLoop sym o2 rest with ⟨ts2, o3, rest3⟩
          rw [matchBuyLoop, if_neg h0, if_pos hcm, hq] at hres hrem ⊢
          simp only [he, if_true, hr] at hres hrem ⊢
          have hih := ih o2
          rw [hr] at hih
          exact hih hres hrem
        · rw [matchBuyLoop, if_neg h0, if_pos hcm, hq] at hrem
          simp only [he, Bool.false_eq_true, if_false] at hrem
          have hexh := matchAtLevel_queue_nonempty_exhausted sym Side.Buy p q o
          rw [hq] at hexh
          have : q2b ≠ [] := by
            simp only [List.isEmpty_eq_true] at he
            exact he
          exact absurd (hexh this) hrem
      · rw [matchBuyLoop, if_neg h0, if_neg hcm] at hres hrem ⊢
        have hp : p2 = p := by
          have := congrArg (fun l => (l.headI : Nat × List Order).1) hres
          simpa using this.symm
        rw [hp]
        simpa using hcm

theorem matchSellLoopRev_exit (sym : SymBytes) (lv : Levels) (o : Order) (p2 : Nat)
    (q2 : List Order) (rest2 : Levels)
    (hres : (matchSellLoopRev sym o lv).2.2 = (p2, q2) :: rest2)
    (hrem : (matchSellLoopRev sym o lv).2.1.remaining_qty ≠ 0) :
    canMatchSell (matchSellLoopRev sym o lv).2.1 p2 = false := by
  induction lv generalizing o with
  | nil => simp [matchSellLoopRev] at hres
  | cons pq rest ih =>
    rcases pq with ⟨p, q⟩
    by_cases h0 : o.remaining_qty = 0
    · rw [matchSellLoopRev, if_pos h0] at hrem
      exact absurd h0 hrem
    · by_cases hcm : canMatchSell o p = true
      · rcases hq : matchAtLevel sym Side.Sell p o q with ⟨ts, o2, q2b⟩
        by_cases he : q2b.isEmpty = true
        · rcases hr : matchSellLoopRev sym o2 rest with ⟨ts2, o3, rest3⟩
          rw [matchSellLoopRev, if_neg h0, if_pos hcm, hq] at hres hrem ⊢
          simp only [he, if_true, hr] at hres hrem ⊢
          have hih := ih o2
          rw [hr] at hih
          exact hih hres hrem
        · rw [matchSellLoopRev, if_neg h0, if_pos hcm, hq] at hrem
          simp only [he, Bool.false_eq_true, if_false] at hrem
          have hexh := matchAtLevel_queue_nonempty_exhausted sym Side.Sell p q o
          rw [hq] at hexh
          have : q2b ≠ [] := by
            simp only [List.isEmpty_eq_true] at he
            exact he
          exact absurd (hexh this) hrem
      · rw [matchSellLoopRev, if_neg h0, if_neg hcm] at hres hrem ⊢
        have hp : p2 = p := by
          have := congrArg (fun l => (l.headI : Nat × List Order).1) hres
          simpa using this.symm
        rw [hp]
        simpa using hcm

theorem levelsPushAt_keys_mem (lv : Levels) (p : Nat) (o : Order) (k : Nat)
    (h : k ∈ levelsKeys (levelsPushAt lv p o)) : k = p ∨ k ∈ levelsKeys lv := by
  induction lv with
  | nil =>
    simp [levelsPushAt, levelsKeys] at h
    exact Or.inl h
  | cons pq rest ih =>
    rcases pq with ⟨k1, q⟩
    simp only [levelsPushAt] at h
    split at h
    · rcases List.mem_cons.mp (by rwa [levelsKeys_cons] at h) with h1 | h1
      · exact Or.inl h1
      · rw [levelsKeys_cons]
        exact Or.inr h1
    · split at h
      · rcases List.mem_cons.mp (by rwa [levelsKeys_cons] at h) with h1 | h1
        · rw [levelsKeys_cons, h1]
          exact Or.inr (List.mem_cons_self k1 _)
        · rw [levelsKeys_cons]
          exact Or.inr (List.mem_cons_of_mem k1 h1)
      · rcases List.mem_cons.mp (by rwa [levelsKeys_cons] at h) with h1 | h1
        · rw [levelsKeys_cons, h1]
          exact Or.inr (List.mem_cons_self k1 _)
        · rcases ih h1 with h2 | h2
          · exact Or.inl h2
          · rw [levelsKeys_cons]
            exact Or.inr (List.mem_cons_of_mem k1 h2)

theorem levelsPushAt_keys_sorted (lv : Levels) (p : Nat) (o : Order)
    (h : keysSorted lv) : keysSorted (levelsPushAt lv p o) := by
  induction lv with
  | nil => simp [levelsPushAt, keysSorted, levelsKeys]
  | cons pq rest ih =>
    rcases pq with ⟨k1, q⟩
    simp only [keysSorted, levelsKeys_cons, List.pairwise_cons] at h
    rcases h with ⟨hk1, hrest⟩
    simp only [levelsPushAt]
    split
    · simp only [keysSorted, levelsKeys_cons, List.pairwise_cons]
      refine ⟨?_, hk1, hrest⟩
      intro k hk
      rcases (by simpa [levelsKeys] using hk : k = k1 ∨ k ∈ levelsKeys rest) with h1 | h1
      · omega
      · have := hk1 k h1
        omega
    · split
      · simp only [keysSorted, levelsKeys_cons, List.pairwise_cons]
        exact ⟨hk1, hrest⟩
      · simp only [keysSorted, levelsKeys_cons, List.pairwise_cons]
        refine ⟨?_, ih hrest⟩
        intro k hk
        rcases levelsPushAt_keys_mem rest p o k hk with h1 | h1
        · omega
        · exact hk1 k h1

theorem remove_from_side_keys (lv : Levels) (u i : Nat) :
    levelsKeys (remove_from_side lv u i).2 = levelsKeys lv := by
  induction lv with
  | nil => simp [remove_from_side]
  | cons pq rest ih =>
    rcases pq with ⟨p, q⟩
    simp only [remove_from_side]
    rcases removeFirstOrder q u i with _ | q2
    · rcases hr : remove_from_side rest u i with ⟨f, rest2⟩
      rw [hr] at ih
      simp [levelsKeys_cons, ih]
    · simp [levelsKeys_cons]

theorem check_top_of_book_sides (b : OrderBook) :
    (b.check_top_of_book_changes).2.bids = b.bids
    ∧ (b.check_top_of_book_changes).2.asks = b.asks := by
  simp only [OrderBook.check_top_of_book_changes]
  repeat' split
  all_goals exact ⟨rfl, rfl⟩

theorem pairwise_head_lt (p2 : Nat) (ks : List Nat) (h : (p2 :: ks).Pairwise (· < ·)) :
    ∀ k ∈ p2 :: ks, p2 ≤ k := by
  intro k hk
  rcases List.mem_cons.mp hk with h1 | h1
  · omega
  · have := (List.pairwise_cons.mp h).1 k h1
    omega

theorem match_order_buy_next (b : OrderBook) (o : Order) (hside : o.side = Side.Buy)
    (hs : keysSorted b.asks) :
    keysSorted ((b.match_order o).2.2).asks
    ∧ ((b.match_order o).2.2).bids = b.bids
    ∧ (∀ k ∈ levelsKeys ((b.match_order o).2.2).asks, k ∈ levelsKeys b.asks)
    ∧ ((b.match_order o).2.1.remaining_qty ≠ 0 →
        (b.match_order o).2.1.order_type = OrderType.Limit →
          ∀ pa ∈ levelsKeys ((b.match_order o).2.2).asks,
            (b.match_order o).2.1.price < pa) := by
  simp only [OrderBook.match_order, hside]
  rcases hr : matchBuyLoop b.symbol o b.asks with ⟨ts, o2, asks2⟩
  try simp only []
  have hsuf := matchBuyLoop_keys_suffix b.symbol b.asks o
  rw [hr] at hsuf
  try simp only [] at hsuf
  refine ⟨hs.sublist hsuf.sublist, trivial, fun k hk => hsuf.sublist.mem hk, ?_⟩
  intro hrem hlim pa hpa
  rcases hasks2 : asks2 with _ | ⟨⟨p2, q2⟩, rest2⟩
  · rw [hasks2] at hpa
    simp [levelsKeys] at hpa
  · have hexit := matchBuyLoop_exit b.symbol b.asks o p2 q2 rest2
    rw [hr] at hexit
    try simp only [] at hexit
    have hcm := hexit (by rw [hasks2]) hrem
    have hprice : o2.price < p2 := by
      rw [canMatchBuy, hlim] at hcm
      simpa using hcm
    rw [hasks2, levelsKeys_cons] at hpa
    have hsorted2 : (p2 :: levelsKeys rest2).Pairwise (· < ·) := by
      have hpw := hs.sublist hsuf.sublist
      rwa [hasks2, levelsKeys_cons] at hpw
    have := pairwise_head_lt p2 (levelsKeys rest2) hsorted2 pa hpa
    omega

theorem match_order_sell_next (b : OrderBook) (o : Order) (hside : o.side = Side.Sell)
    (hs : keysSorted b.bids) :
    keysSorted ((b.match_order o).2.2).bids
    ∧ ((b.match_order o).2.2).asks = b.asks
    ∧ (∀ k ∈ levelsKeys ((b.match_order o).2.2).bids, k ∈ levelsKeys b.bids)
    ∧ ((b.match_order o).2.1.remaining_qty ≠ 0 →
        (b.match_order o).2.1.order_type = OrderType.Limit →
          ∀ pb ∈ levelsKeys ((b.match_order o).2.2).bids,
            pb < (b.match_order o).2.1.price) := by
  simp only [OrderBook.match_order, hside]
  rcases hr : matchSellLoopRev b.symbol o b.bids.reverse with ⟨ts, o2, bidsRev2⟩
  try simp only []
  have hsuf := matchSellLoopRev_keys_suffix b.symbol b.bids.reverse o
  rw [hr] at hsuf
  try simp only [] at hsuf
  have hkeysrev : levelsKeys b.bids.reverse = (levelsKeys b.bids).reverse := by
    simp [levelsKeys]
  have hkeysrev2 : levelsKeys bidsRev2.reverse = (levelsKeys bidsRev2).reverse := by
    simp [levelsKeys]
  have hmem : ∀ k ∈ levelsKeys bidsRev2, k ∈ levelsKeys b.bids := by
    intro k hk
    have hk2 := hsuf.sublist.mem hk
    rw [hkeysrev] at hk2
    exact List.mem_reverse.mp hk2
  have hdesc : (levelsKeys bidsRev2).Pairwise (fun a b => b < a) := by
    have hrev : (levelsKeys b.bids.reverse).Pairwise (fun a b => b < a) := by
      rw [hkeysrev]
      exact List.pairwise_reverse.mpr hs
    exact hrev.sublist hsuf.sublist
  refine ⟨?_, trivial, ?_, ?_⟩
  · rw [keysSorted, hkeysrev2]
    exact List.pairwise_reverse.mpr hdesc
  · intro k hk
    rw [hkeysrev2] at hk
    exact hmem k (List.mem_reverse.mp hk)
  · intro hrem hlim pb hpb
    rw [hkeysrev2] at hpb
    have hpb2 : pb ∈ levelsKeys bidsRev2 := List.mem_reverse.mp hpb
    rcases hbids2 : bidsRev2 with _ | ⟨⟨p2, q2⟩, rest2⟩
    · rw [hbids2] at hpb2
      simp [levelsKeys] at hpb2
    · have hexit := matchSellLoopRev_exit b.symbol b.bids.reverse o p2 q2 rest2
      rw [hr] at hexit
      try simp only [] at hexit
      have hcm := hexit (by rw [hbids2]) hrem
      have hprice : p2 < o2.price := by
        rw [canMatchSell, hlim] at hcm
        simpa using hcm
      have hdesc2 : (p2 :: levelsKeys rest2).Pairwise (fun a b => b < a) := by
        have := hdesc
        rwa [hbids2, levelsKeys_cons] at this
      rw [hbids2, levelsKeys_cons] at hpb2
      rcases List.mem_cons.mp hpb2 with h1 | h1
      · omega
      · have := (List.pairwise_cons.mp hdesc2).1 pb h1
        omega

theorem match_order_preserves_incoming (b : OrderBook) (o : Order) :
    (b.match_order o).2.1.side = o.side
    ∧ (b.match_order o).2.1.price = o.price
    ∧ (b.match_order o).2.1.order_type = o.order_type := by
  simp only [OrderBook.match_order]
  rcases hside : o.side with _ | _
  · rcases hr : matchBuyLoop b.symbol o b.asks with ⟨ts, o2, asks2⟩
    have h := matchBuyLoop_preserves_order b.symbol b.asks o
    rw [hr, hside] at h
    simpa using h
  · rcases hr : matchSellLoopRev b.symbol o b.bids.reverse with ⟨ts, o2, bids2⟩
    have h := matchSellLoopRev_preserves_order b.symbol b.bids.reverse o
    rw [hr, hside] at h
    simpa using h

theorem BookWF_of_sides (b c : OrderBook) (hb : b.bids = c.bids) (ha : b.asks = c.asks)
    (h : BookWF c) : BookWF b := by
  rcases h with ⟨h1, h2, h3⟩
  refine ⟨?_, ?_, ?_⟩
  · rw [keysSorted, hb]
    exact h1
  · rw [keysSorted, ha]
    exact h2
  · intro pb hpb pa hpa
    rw [hb] at hpb
    rw [ha] at hpa
    exact h3 pb hpb pa hpa

theorem check_top_preserves_WF (x : OrderBook) (h : BookWF x) :
    BookWF (x.check_top_of_book_changes).2 :=
  BookWF_of_sides _ x (check_top_of_book_sides x).1 (check_top_of_book_sides x).2 h

theorem add_order_preserves_WF (b : OrderBook) (m : NewOrder) (ts : Nat)
    (h : BookWF b) : BookWF (b.add_order m ts).2 := by
  rcases h with ⟨hsb, hsa, hnc⟩
  simp only [OrderBook.add_order]
  rcases hm : b.match_order (Order.from_new_order m ts) with ⟨trades, o2, b1⟩
  try simp only []
  have hpres := match_order_preserves_incoming b (Order.from_new_order m ts)
  rw [hm] at hpres
  try simp only [] at hpres
  rcases hside : (Order.from_new_order m ts).side
  · -- Buy: asks consumed, bids untouched, a residual limit rests on the bids
    have hnext := match_order_buy_next b (Order.from_new_order m ts) hside hsa
    rw [hm] at hnext
    try simp only [] at hnext
    rcases hnext with ⟨hsa1, hbids1, hmem1, hrest⟩
    have hwf1 : BookWF b1 := by
      refine ⟨?_, hsa1, ?_⟩
      · rw [keysSorted, hbids1]
        exact hsb
      · intro pb hpb pa hpa
        rw [hbids1] at hpb
        exact hnc pb hpb pa (hmem1 pa hpa)
    apply check_top_preserves_WF
    split
    · next hc =>
      rcases hc with ⟨hc1, hc2⟩
      have hside2 : o2.side = Side.Buy := hpres.1.trans hside
      simp only [OrderBook.add_to_book, hside2]
      refine ⟨?_, ?_, ?_⟩
      · exact levelsPushAt_keys_sorted b1.bids o2.price o2 (by
          rw [keysSorted, hbids1]; exact hsb)
      · exact hwf1.2.1
      · intro pb hpb pa hpa
        rcases levelsPushAt_keys_mem b1.bids o2.price o2 pb hpb with h1 | h1
        · subst h1
          exact hrest (by omega) hc2 pa hpa
        · rw [hbids1] at h1
          exact hnc pb h1 pa (hmem1 pa hpa)
    · exact hwf1
  · -- Sell: bids consumed, asks untouched, a residual limit rests on the asks
    have hnext := match_order_sell_next b (Order.from_new_order m ts) hside hsb
    rw [hm] at hnext
    try simp only [] at hnext
    rcases hnext with ⟨hsb1, hasks1, hmem1, hrest⟩
    have hwf1 : BookWF b1 := by
      refine ⟨hsb1, ?_, ?_⟩
      · rw [keysSorted, hasks1]
        exact hsa
      · intro pb hpb pa hpa
        rw [hasks1] at hpa
        exact hnc pb (hmem1 pb hpb) pa hpa
    apply check_top_preserves_WF
    split
    · next hc =>
      rcases hc with ⟨hc1, hc2⟩
      have hside2 : o2.side = Side.Sell := hpres.1.trans hside
      simp only [OrderBook.add_to_book, hside2]
      refine ⟨hsb1, ?_, ?_⟩
      · exact levelsPushAt_keys_sorted b1.asks o2.price o2 (by
          rw [keysSorted, hasks1]; exact hsa)
      · intro pb hpb pa hpa
        rcases levelsPushAt_keys_mem b1.asks o2.price o2 pa hpa with h1 | h1
        · subst h1
          exact hrest (by omega) hc2 pb hpb
        · rw [hasks1] at h1
          exact hnc pb (hmem1 pb hpb) pa h1
    · exact hwf1

theorem cancel_order_preserves_WF (b : OrderBook) (u i : Nat) (h : BookWF b) :
    BookWF (b.cancel_order u i).2 := by
  rcases h with ⟨hsb, hsa, hnc⟩
  simp only [OrderBook.cancel_order]
  rcases h1 : remove_from_side b.bids u i with ⟨fb, bids2⟩
  have hkb := remove_from_side_keys b.bids u i
  rw [h1] at hkb
  try simp only [] at hkb
  cases fb with
  | true =>
    simp only [if_true]
    have hwf1 : BookWF (OrderBook.mk b.symbol bids2 b.asks b.prev_best_bid_price
        b.prev_best_bid_qty b.prev_best_ask_price b.prev_best_ask_qty) := by
      refine ⟨?_, hsa, ?_⟩
      · rw [keysSorted]
        simp only []
        rw [hkb]
        exact hsb
      · intro pb hpb pa hpa
        simp only [] at hpb hpa
        rw [hkb] at hpb
        exact hnc pb hpb pa hpa
    rcases ht : (OrderBook.mk b.symbol bids2 b.asks b.prev_best_bid_price
        b.prev_best_bid_qty b.prev_best_ask_price b.prev_best_ask_qty).check_top_of_book_changes
      with ⟨tobs, b3⟩
    have := check_top_preserves_WF _ hwf1
    rw [ht] at this
    exact this
  | false =>
    rcases h2 : remove_from_side b.asks u i with ⟨fa, asks2⟩
    have hka := remove_from_side_keys b.asks u i
    rw [h2] at hka
    try simp only [] at hka
    have hwf1 : BookWF (OrderBook.mk b.symbol b.bids asks2 b.prev_best_bid_price
        b.prev_best_bid_qty b.prev_best_ask_price b.prev_best_ask_qty) := by
      refine ⟨hsb, ?_, ?_⟩
      · rw [keysSorted]
        simp only []
        rw [hka]
        exact hsa
      · intro pb hpb pa hpa
        simp only [] at hpb hpa
        rw [hka] at hpa
        exact hnc pb hpb pa hpa
    cases fa with
    | true =>
      simp only [if_true, Bool.false_eq_true, if_false]
      rcases ht : (OrderBook.mk b.symbol b.bids asks2 b.prev_best_bid_price
          b.prev_best_bid_qty b.prev_best_ask_price
          b.prev_best_ask_qty).check_top_of_book_changes with ⟨tobs, b3⟩
      have := check_top_preserves_WF _ hwf1
      rw [ht] at this
      exact this
    | false =>
      simp only [Bool.false_eq_true, if_false]
      exact hwf1

theorem flush_WF (b : OrderBook) : BookWF b.flush := by
  refine ⟨?_, ?_, ?_⟩ <;> simp [OrderBook.flush, keysSorted, levelsKeys, BookNoCross]

theorem new_book_WF (sym : SymBytes) : BookWF (OrderBook.new sym) := by
  refine ⟨?_, ?_, ?_⟩ <;> simp [OrderBook.new, keysSorted, levelsKeys, BookNoCross]

theorem runBook_preserves_WF (ops : List BookOp) (b : OrderBook) (h : BookWF b) :
    BookWF (runBook b ops) := by
  induction ops generalizing b with
  | nil => exact h
  | cons op rest ih =>
    cases op with
    | add m ts => exact ih _ (add_order_preserves_WF b m ts h)
    | cancel u i => exact ih _ (cancel_order_preserves_WF b u i h)
    | flushOp => exact ih _ (flush_WF b)

/-- C3: at every quiescent point of any operation sequence on a book that
starts empty, if both the bids map and the asks map are non-empty then the
greatest bid price key (`best_bid_price`) is strictly below the least ask
price key (`best_ask_price`): the book is never locked or crossed at rest. -/
theorem reachable_book_never_crossed (sym : SymBytes) (ops : List BookOp)
    (hb : (runBook (OrderBook.new sym) ops).bids ≠ [])
    (ha : (runBook (OrderBook.new sym) ops).asks ≠ []) :
    (runBook (OrderBook.new sym) ops).best_bid_price
      < (runBook (OrderBook.new sym) ops).best_ask_price := by
  have hwf := runBook_preserves_WF ops (OrderBook.new sym) (new_book_WF sym)
  rcases hwf with ⟨hsb, hsa, hnc⟩
  have hkb : levelsKeys (runBook (OrderBook.new sym) ops).bids ≠ [] := by
    intro hcon
    exact hb (List.map_eq_nil_iff.mp hcon)
  have hka : levelsKeys (runBook (OrderBook.new sym) ops).asks ≠ [] := by
    intro hcon
    exact ha (List.map_eq_nil_iff.mp hcon)
  have hbid : (runBook (OrderBook.new sym) ops).best_bid_price
      ∈ levelsKeys (runBook (OrderBook.new sym) ops).bids := by
    rw [OrderBook.best_bid_price, List.getLast?_eq_getLast _ hkb]
    exact List.getLast_mem hkb
  have hask : (runBook (OrderBook.new sym) ops).best_ask_price
      ∈ levelsKeys (runBook (OrderBook.new sym) ops).asks := by
    rw [OrderBook.best_ask_price, List.head?_eq_head hka]
    exact List.head_mem hka
  exact hnc _ hbid _ hask

theorem reachable_book_never_crossed_witness :
    ((runBook (OrderBook.new ibmSymbol)
        [BookOp.add ⟨1, ibmSymbol, 10, 5, Side.Buy, 1⟩ 0,
         BookOp.add ⟨2, ibmSymbol, 20, 5, Side.Sell, 2⟩ 0]).bids ≠ []
      ∧ (runBook (OrderBook.new ibmSymbol)
        [BookOp.add ⟨1, ibmSymbol, 10, 5, Side.Buy, 1⟩ 0,
         BookOp.add ⟨2, ibmSymbol, 20, 5, Side.Sell, 2⟩ 0]).asks ≠ [])
    ∧ (runBook (OrderBook.new ibmSymbol)
        [BookOp.add ⟨1, ibmSymbol, 10, 5, Side.Buy, 1⟩ 0,
         BookOp.add ⟨2, ibmSymbol, 20, 5, Side.Sell, 2⟩ 0]).best_bid_price
      < (runBook (OrderBook.new ibmSymbol)
        [BookOp.add ⟨1, ibmSymbol, 10, 5, Side.Buy, 1⟩ 0,
         BookOp.add ⟨2, ibmSymbol, 20, 5, Side.Sell, 2⟩ 0]).best_ask_price :=
  ⟨⟨by decide, by decide⟩,
   reachable_book_never_crossed ibmSymbol
     [BookOp.add ⟨1, ibmSymbol, 10, 5, Side.Buy, 1⟩ 0,
      BookOp.add ⟨2, ibmSymbol, 20, 5, Side.Sell, 2⟩ 0] (by decide) (by decide)⟩

theorem sideFromByte_sideToByte (s : Side) : sideFromByte (sideToByte s) = some s := by
  cases s <;> rfl

theorem validate_symbol_len_true (L : Nat) (h1 : 1 ≤ L) (h2 : L ≤ 32) :
    validate_symbol_len L = true := by
  simp only [validate_symbol_len, MAX_SYMBOL_LEN, Bool.and_eq_true, decide_eq_true_eq]
  omega

theorem strFromUtf8_of_valid (s : List Nat) (h : utf8Valid s = true) :
    strFromUtf8 s = some s := by
  simp [strFromUtf8, h]

theorem listSlice_exact (l1 s : List Nat) (n : Nat) (h : l1.length = n) :
    listSlice (l1 ++ s) n (n + s.length) = s := by
  subst h
  simp only [listSlice, List.drop_left, Nat.add_sub_cancel_left, List.take_length]

theorem byteAt_append_start (l1 l2 : List Nat) (n : Nat) (h : l1.length = n) :
    byteAt (l1 ++ l2) n = byteAt l2 0 := by
  subst h
  simp [byteAt, List.getD, List.getElem?_append_right (Nat.le_refl l1.length)]

theorem readU32_append_start (l1 l2 : List Nat) (n : Nat) (h : l1.length = n) :
    readU32 (l1 ++ l2) n = readU32 l2 0 := by
  subst h
  have hb : ∀ i : Nat, byteAt (l1 ++ l2) (l1.length + i) = byteAt l2 i := by
    intro i
    have hle : l1.length ≤ l1.length + i := Nat.le_add_right _ _
    simp [byteAt, List.getD, List.getElem?_append_right hle]
  simp only [readU32]
  rw [show l1.length + 1 = l1.length + 1 from rfl]
  rw [show (l1.length + (0 + 1) : Nat) = l1.length + 1 from by omega]
  have h0 := hb 0
  have h1 := hb 1
  have h2 := hb 2
  have h3 := hb 3
  rw [show (l1.length + 2 : Nat) = l1.length + 2 from rfl] at h2
  rw [show (l1.length + 3 : Nat) = l1.length + 3 from rfl] at h3
  rw [Nat.add_zero] at h0
  rw [h0, h1, h2, h3]

theorem readU32_toBE32_first (n : Nat) (hn : n < 2 ^ 32) (rest : List Nat) :
    readU32 (toBE32 n ++ rest) 0 = n := by
  show 2 ^ 24 * (n / 2 ^ 24 % 256) + 2 ^ 16 * (n / 2 ^ 16 % 256)
      + 2 ^ 8 * (n / 2 ^ 8 % 256) + n % 256 = n
  omega

theorem decode_encode_new_order (m : NewOrder) (h : m.wf = true) :
    ∃ bytes, encode_input (InputMessage.NewOrder m) = Except.ok bytes
      ∧ decode_input bytes = Except.ok (InputMessage.NewOrder m) := by
  simp only [NewOrder.wf, symbolWF, Bool.and_eq_true, decide_eq_true_eq] at h
  obtain ⟨⟨⟨⟨⟨hu, hi⟩, hp⟩, hq⟩, hq0⟩, ⟨hl1, hl2⟩, hutf⟩ := h
  have henc : encode_input (InputMessage.NewOrder m)
      = Except.ok
        ([WireInputType.NewOrder.toU8, PROTOCOL_VERSION, 0, 0]
          ++ toBE32 m.user_id ++ toBE32 m.user_order_id ++ toBE32 m.price
          ++ toBE32 m.quantity ++ [sideToByte m.side, m.symbol.length] ++ m.symbol) := by
    simp only [encode_input, encode_input_new_order]
    rw [if_neg]
    simp only [Bool.or_eq_true, not_or, List.isEmpty_eq_true, decide_eq_true_eq]
    constructor
    · intro hcon
      rw [hcon] at hl1
      simp at hl1
    · simp only [MAX_SYMBOL_LEN]
      omega
  refine ⟨_, henc, ?_⟩
  have hlen : ([WireInputType.NewOrder.toU8, PROTOCOL_VERSION, 0, 0]
      ++ toBE32 m.user_id ++ toBE32 m.user_order_id ++ toBE32 m.price
      ++ toBE32 m.quantity ++ [sideToByte m.side, m.symbol.length]
      ++ m.symbol).length = 22 + m.symbol.length := by
    simp [toBE32]
    try omega
  simp only [decode_input]
  rw [hlen, if_neg (by omega)]
  have hver : byteAt ([WireInputType.NewOrder.toU8, PROTOCOL_VERSION, 0, 0]
      ++ toBE32 m.user_id ++ toBE32 m.user_order_id ++ toBE32 m.price
      ++ toBE32 m.quantity ++ [sideToByte m.side, m.symbol.length]
      ++ m.symbol) 1 = PROTOCOL_VERSION := rfl
  rw [hver, if_neg (by simp)]
  have htype : WireInputType.from_u8 (byteAt ([WireInputType.NewOrder.toU8, PROTOCOL_VERSION,
      0, 0] ++ toBE32 m.user_id ++ toBE32 m.user_order_id ++ toBE32 m.price
      ++ toBE32 m.quantity ++ [sideToByte m.side, m.symbol.length]
      ++ m.symbol) 0) = some WireInputType.NewOrder := rfl
  rw [htype]
  simp only [decode_new_order]
  rw [hlen, if_neg (by omega)]
  have hru : readU32 ([WireInputType.NewOrder.toU8, PROTOCOL_VERSION, 0, 0]
      ++ toBE32 m.user_id ++ toBE32 m.user_order_id ++ toBE32 m.price
      ++ toBE32 m.quantity ++ [sideToByte m.side, m.symbol.length]
      ++ m.symbol) 4 = m.user_id := by
    show 2 ^ 24 * (m.user_id / 2 ^ 24 % 256) + 2 ^ 16 * (m.user_id / 2 ^ 16 % 256)
        + 2 ^ 8 * (m.user_id / 2 ^ 8 % 256) + m.user_id % 256 = m.user_id
    omega
  have hri : readU32 ([WireInputType.NewOrder.toU8, PROTOCOL_VERSION, 0, 0]
      ++ toBE32 m.user_id ++ toBE32 m.user_order_id ++ toBE32 m.price
      ++ toBE32 m.quantity ++ [sideToByte m.side, m.symbol.length]
      ++ m.symbol) 8 = m.user_order_id := by
    show 2 ^ 24 * (m.user_order_id / 2 ^ 24 % 256)
        + 2 ^ 16 * (m.user_order_id / 2 ^ 16 % 256)
        + 2 ^ 8 * (m.user_order_id / 2 ^ 8 % 256) + m.user_order_id % 256 = m.user_order_id
    omega
  have hrp : readU32 ([WireInputType.NewOrder.toU8, PROTOCOL_VERSION, 0, 0]
      ++ toBE32 m.user_id ++ toBE32 m.user_order_id ++ toBE32 m.price
      ++ toBE32 m.quantity ++ [sideToByte m.side, m.symbol.length]
      ++ m.symbol) 12 = m.price := by
    show 2 ^ 24 * (m.price / 2 ^ 24 % 256) + 2 ^ 16 * (m.price / 2 ^ 16 % 256)
        + 2 ^ 8 * (m.price / 2 ^ 8 % 256) + m.price % 256 = m.price
    omega
  have hrq : readU32 ([WireInputType.NewOrder.toU8, PROTOCOL_VERSION, 0, 0]
      ++ toBE32 m.user_id ++ toBE32 m.user_order_id ++ toBE32 m.price
      ++ toBE32 m.quantity ++ [sideToByte m.side, m.symbol.length]
      ++ m.symbol) 16 = m.quantity := by
    show 2 ^ 24 * (m.quantity / 2 ^ 24 % 256) + 2 ^ 16 * (m.quantity / 2 ^ 16 % 256)
        + 2 ^ 8 * (m.quantity / 2 ^ 8 % 256) + m.quantity % 256 = m.quantity
    omega
  have hsd : byteAt ([WireInputType.NewOrder.toU8, PROTOCOL_VERSION, 0, 0]
      ++ toBE32 m.user_id ++ toBE32 m.user_order_id ++ toBE32 m.price
      ++ toBE32 m.quantity ++ [sideToByte m.side, m.symbol.length]
      ++ m.symbol) 20 = sideToByte m.side := rfl
  have hsl : byteAt ([WireInputType.NewOrder.toU8, PROTOCOL_VERSION, 0, 0]
      ++ toBE32 m.user_id ++ toBE32 m.user_order_id ++ toBE32 m.price
      ++ toBE32 m.quantity ++ [sideToByte m.side, m.symbol.length]
      ++ m.symbol) 21 = m.symbol.length := rfl
  rw [hru, hri, hrp, hrq, hsd, sideFromByte_sideToByte, hsl,
    validate_symbol_len_true _ hl1 hl2]
  simp only [Bool.not_true, Bool.false_eq_true, if_false, ite_false]
  rw [if_neg (by omega)]
  have hslice : listSlice ([WireInputType.NewOrder.toU8, PROTOCOL_VERSION, 0, 0]
      ++ toBE32 m.user_id ++ toBE32 m.user_order_id ++ toBE32 m.price
      ++ toBE32 m.quantity ++ [sideToByte m.side, m.symbol.length]
      ++ m.symbol) 22 (22 + m.symbol.length) = m.symbol := by
    have hform : ([WireInputType.NewOrder.toU8, PROTOCOL_VERSION, 0, 0]
        ++ toBE32 m.user_id ++ toBE32 m.user_order_id ++ toBE32 m.price
        ++ toBE32 m.quantity ++ [sideToByte m.side, m.symbol.length]
        ++ m.symbol)
        = ([WireInputType.NewOrder.toU8, PROTOCOL_VERSION, 0, 0]
          ++ toBE32 m.user_id ++ toBE32 m.user_order_id ++ toBE32 m.price
          ++ toBE32 m.quantity ++ [sideToByte m.side, m.symbol.length]) ++ m.symbol := by
      simp [List.append_assoc]
    rw [hform]
    exact listSlice_exact _ _ 22 (by simp [toBE32]; try omega)
  rw [hslice, strFromUtf8_of_valid _ hutf]
  simp only []
  rw [if_neg (by omega)]

theorem decode_encode_cancel (c : Cancel) (hu : c.user_id < 2 ^ 32)
    (hi : c.user_order_id < 2 ^ 32) :
    ∃ bytes, encode_input (InputMessage.Cancel c) = Except.ok bytes
      ∧ decode_input bytes = Except.ok (InputMessage.Cancel c) := by
  refine ⟨_, rfl, ?_⟩
  simp only [decode_input, decode_cancel]
  have hlen : (([WireInputType.Cancel.toU8, PROTOCOL_VERSION, 0, 0]
      ++ toBE32 c.user_id ++ toBE32 c.user_order_id) : List Nat).length = 12 := by
    simp [toBE32]
  rw [hlen, if_neg (by omega)]
  have hver : byteAt ([WireInputType.Cancel.toU8, PROTOCOL_VERSION, 0, 0]
      ++ toBE32 c.user_id ++ toBE32 c.user_order_id) 1 = PROTOCOL_VERSION := rfl
  rw [hver, if_neg (by simp)]
  have htype : WireInputType.from_u8 (byteAt ([WireInputType.Cancel.toU8, PROTOCOL_VERSION,
      0, 0] ++ toBE32 c.user_id ++ toBE32 c.user_order_id) 0)
      = some WireInputType.Cancel := rfl
  rw [htype]
  simp only []
  rw [if_neg (show ¬(12 < 12) by omega)]
  have hru : readU32 ([WireInputType.Cancel.toU8, PROTOCOL_VERSION, 0, 0]
      ++ toBE32 c.user_id ++ toBE32 c.user_order_id) 4 = c.user_id := by
    show 2 ^ 24 * (c.user_id / 2 ^ 24 % 256) + 2 ^ 16 * (c.user_id / 2 ^ 16 % 256)
        + 2 ^ 8 * (c.user_id / 2 ^ 8 % 256) + c.user_id % 256 = c.user_id
    omega
  have hri : readU32 ([WireInputType.Cancel.toU8, PROTOCOL_VERSION, 0, 0]
      ++ toBE32 c.user_id ++ toBE32 c.user_order_id) 8 = c.user_order_id := by
    show 2 ^ 24 * (c.user_order_id / 2 ^ 24 % 256) + 2 ^ 16 * (c.user_order_id / 2 ^ 16 % 256)
        + 2 ^ 8 * (c.user_order_id / 2 ^ 8 % 256) + c.user_order_id % 256 = c.user_order_id
    omega
  rw [hru, hri]

theorem decode_encode_flush :
    ∃ bytes, encode_input InputMessage.Flush = Except.ok bytes
      ∧ decode_input bytes = Except.ok InputMessage.Flush :=
  ⟨_, rfl, rfl⟩

theorem decode_encode_query_tob (q : TopOfBookQuery) (h : symbolWF q.symbol = true) :
    ∃ bytes, encode_input (InputMessage.QueryTopOfBook q) = Except.ok bytes
      ∧ decode_input bytes = Except.ok (InputMessage.QueryTopOfBook q) := by
  simp only [symbolWF, Bool.and_eq_true, decide_eq_true_eq] at h
  obtain ⟨⟨hl1, hl2⟩, hutf⟩ := h
  have henc : encode_input (InputMessage.QueryTopOfBook q)
      = Except.ok ([WireInputType.QueryTopOfBook.toU8, PROTOCOL_VERSION, 0, 0]
          ++ [q.symbol.length] ++ q.symbol) := by
    simp only [encode_input, encode_input_query_tob]
    rw [if_neg]
    simp only [Bool.or_eq_true, not_or, List.isEmpty_eq_true, decide_eq_true_eq]
    constructor
    · intro hcon
      rw [hcon] at hl1
      simp at hl1
    · simp only [MAX_SYMBOL_LEN]
      omega
  refine ⟨_, henc, ?_⟩
  have hlen : (([WireInputType.QueryTopOfBook.toU8, PROTOCOL_VERSION, 0, 0]
      ++ [q.symbol.length] ++ q.symbol) : List Nat).length = 5 + q.symbol.length := by
    simp
    try omega
  simp only [decode_input, decode_query_tob]
  rw [hlen, if_neg (by omega)]
  have hver : byteAt ([WireInputType.QueryTopOfBook.toU8, PROTOCOL_VERSION, 0, 0]
      ++ [q.symbol.length] ++ q.symbol) 1 = PROTOCOL_VERSION := rfl
  rw [hver, if_neg (by simp)]
  have htype : WireInputType.from_u8 (byteAt ([WireInputType.QueryTopOfBook.toU8,
      PROTOCOL_VERSION, 0, 0] ++ [q.symbol.length] ++ q.symbol) 0)
      = some WireInputType.QueryTopOfBook := rfl
  rw [htype]
  simp only []
  rw [if_neg (show ¬(5 + q.symbol.length < 5) by omega)]
  have hsl : byteAt ([WireInputType.QueryTopOfBook.toU8, PROTOCOL_VERSION, 0, 0]
      ++ [q.symbol.length] ++ q.symbol) 4 = q.symbol.length := rfl
  rw [hsl, validate_symbol_len_true _ hl1 hl2]
  simp only [Bool.not_true, Bool.false_eq_true, if_false, ite_false]
  rw [if_neg (by omega)]
  have hslice : listSlice ([WireInputType.QueryTopOfBook.toU8, PROTOCOL_VERSION, 0, 0]
      ++ [q.symbol.length] ++ q.symbol) 5 (5 + q.symbol.length) = q.symbol := by
    have hform : ([WireInputType.QueryTopOfBook.toU8, PROTOCOL_VERSION, 0, 0]
        ++ [q.symbol.length] ++ q.symbol)
        = ([WireInputType.QueryTopOfBook.toU8, PROTOCOL_VERSION, 0, 0]
          ++ [q.symbol.length]) ++ q.symbol := by
      simp [List.append_assoc]
    rw [hform]
    exact listSlice_exact _ _ 5 (by simp)
  rw [hslice, strFromUtf8_of_valid _ hutf]

theorem decode_encode_ack (a : Ack) (hu : a.user_id < 2 ^ 32)
    (hi : a.user_order_id < 2 ^ 32) (hsym : symbolWF a.symbol = true) :
    ∃ bytes, encode_output (OutputMessage.Ack a) = Except.ok bytes
      ∧ decode_output bytes = Except.ok (OutputMessage.Ack a) := by
  simp only [symbolWF, Bool.and_eq_true, decide_eq_true_eq] at hsym
  obtain ⟨⟨hl1, hl2⟩, hutf⟩ := hsym
  have henc : encode_output (OutputMessage.Ack a)
      = Except.ok ([WireOutputType.Ack.toU8, PROTOCOL_VERSION, 0, 0]
          ++ toBE32 a.user_id ++ toBE32 a.user_order_id
          ++ [a.symbol.length] ++ a.symbol) := by
    simp only [encode_output, encode_ack]
    rw [if_neg]
    simp only [Bool.or_eq_true, not_or, List.isEmpty_eq_true, decide_eq_true_eq]
    exact ⟨fun hcon => by rw [hcon] at hl1; simp at hl1, by simp only [MAX_SYMBOL_LEN]; omega⟩
  refine ⟨_, henc, ?_⟩
  have hlen : (([WireOutputType.Ack.toU8, PROTOCOL_VERSION, 0, 0]
      ++ toBE32 a.user_id ++ toBE32 a.user_order_id
      ++ [a.symbol.length] ++ a.symbol) : List Nat).length = 13 + a.symbol.length := by
    simp [toBE32]
    try omega
  simp only [decode_output, decode_ack]
  rw [hlen, if_neg (by omega)]
  have hver : byteAt ([WireOutputType.Ack.toU8, PROTOCOL_VERSION, 0, 0]
      ++ toBE32 a.user_id ++ toBE32 a.user_order_id
      ++ [a.symbol.length] ++ a.symbol) 1 = PROTOCOL_VERSION := rfl
  rw [hver, if_neg (by simp)]
  have htype : WireOutputType.from_u8 (byteAt ([WireOutputType.Ack.toU8, PROTOCOL_VERSION,
      0, 0] ++ toBE32 a.user_id ++ toBE32 a.user_order_id
      ++ [a.symbol.length] ++ a.symbol) 0) = some WireOutputType.Ack := rfl
  rw [htype]
  simp only []
  rw [if_neg (show ¬(13 + a.symbol.length < 13) by omega)]
  have hru : readU32 ([WireOutputType.Ack.toU8, PROTOCOL_VERSION, 0, 0]
      ++ toBE32 a.user_id ++ toBE32 a.user_order_id
      ++ [a.symbol.length] ++ a.symbol) 4 = a.user_id := by
    show 2 ^ 24 * (a.user_id / 2 ^ 24 % 256) + 2 ^ 16 * (a.user_id / 2 ^ 16 % 256)
        + 2 ^ 8 * (a.user_id / 2 ^ 8 % 256) + a.user_id % 256 = a.user_id
    omega
  have hri : readU32 ([WireOutputType.Ack.toU8, PROTOCOL_VERSION, 0, 0]
      ++ toBE32 a.user_id ++ toBE32 a.user_order_id
      ++ [a.symbol.length] ++ a.symbol) 8 = a.user_order_id := by
    show 2 ^ 24 * (a.user_order_id / 2 ^ 24 % 256) + 2 ^ 16 * (a.user_order_id / 2 ^ 16 % 256)
        + 2 ^ 8 * (a.user_order_id / 2 ^ 8 % 256) + a.user_order_id % 256 = a.user_order_id
    omega
  have hsl : byteAt ([WireOutputType.Ack.toU8, PROTOCOL_VERSION, 0, 0]
      ++ toBE32 a.user_id ++ toBE32 a.user_order_id
      ++ [a.symbol.length] ++ a.symbol) 12 = a.symbol.length := rfl
  rw [hru, hri, hsl, validate_symbol_len_true _ hl1 hl2]
  simp only [Bool.not_true, Bool.false_or]
  rw [if_neg (by simp only [decide_eq_true_eq]; omega)]
  have hslice : listSlice ([WireOutputType.Ack.toU8, PROTOCOL_VERSION, 0, 0]
      ++ toBE32 a.user_id ++ toBE32 a.user_order_id
      ++ [a.symbol.length] ++ a.symbol) 13 (13 + a.symbol.length) = a.symbol := by
    have hform : ([WireOutputType.Ack.toU8, PROTOCOL_VERSION, 0, 0]
        ++ toBE32 a.user_id ++ toBE32 a.user_order_id
        ++ [a.symbol.length] ++ a.symbol)
        = ([WireOutputType.Ack.toU8, PROTOCOL_VERSION, 0, 0]
          ++ toBE32 a.user_id ++ toBE32 a.user_order_id ++ [a.symbol.length]) ++ a.symbol := by
      simp [List.append_assoc]
    rw [hform]
    exact listSlice_exact _ _ 13 (by simp [toBE32]; try omega)
  rw [hslice, strFromUtf8_of_valid _ hutf]

theorem decode_encode_cancel_ack (a : CancelAck) (hu : a.user_id < 2 ^ 32)
    (hi : a.user_order_id < 2 ^ 32) (hsym : symbolWF a.symbol = true) :
    ∃ bytes, encode_output (OutputMessage.CancelAck a) = Except.ok bytes
      ∧ decode_output bytes = Except.ok (OutputMessage.CancelAck a) := by
  simp only [symbolWF, Bool.and_eq_true, decide_eq_true_eq] at hsym
  obtain ⟨⟨hl1, hl2⟩, hutf⟩ := hsym
  have henc : encode_output (OutputMessage.CancelAck a)
      = Except.ok ([WireOutputType.CancelAck.toU8, PROTOCOL_VERSION, 0, 0]
          ++ toBE32 a.user_id ++ toBE32 a.user_order_id
          ++ [a.symbol.length] ++ a.symbol) := by
    simp only [encode_output, encode_cancel_ack]
    rw [if_neg]
    simp only [Bool.or_eq_true, not_or, List.isEmpty_eq_true, decide_eq_true_eq]
    exact ⟨fun hcon => by rw [hcon] at hl1; simp at hl1, by simp only [MAX_SYMBOL_LEN]; omega⟩
  refine ⟨_, henc, ?_⟩
  have hlen : (([WireOutputType.CancelAck.toU8, PROTOCOL_VERSION, 0, 0]
      ++ toBE32 a.user_id ++ toBE32 a.user_order_id
      ++ [a.symbol.length] ++ a.symbol) : List Nat).length = 13 + a.symbol.length := by
    simp [toBE32]
    try omega
  simp only [decode_output, decode_cancel_ack]
  rw [hlen, if_neg (by omega)]
  have hver : byteAt ([WireOutputType.CancelAck.toU8, PROTOCOL_VERSION, 0, 0]
      ++ toBE32 a.user_id ++ toBE32 a.user_order_id
      ++ [a.symbol.length] ++ a.symbol) 1 = PROTOCOL_VERSION := rfl
  rw [hver, if_neg (by simp)]
  have htype : WireOutputType.from_u8 (byteAt ([WireOutputType.CancelAck.toU8,
      PROTOCOL_VERSION, 0, 0] ++ toBE32 a.user_id ++ toBE32 a.user_order_id
      ++ [a.symbol.length] ++ a.symbol) 0) = some WireOutputType.CancelAck := rfl
  rw [htype]
  simp only []
  rw [if_neg (show ¬(13 + a.symbol.length < 13) by omega)]
  have hru : readU32 ([WireOutputType.CancelAck.toU8, PROTOCOL_VERSION, 0, 0]
      ++ toBE32 a.user_id ++ toBE32 a.user_order_id
      ++ [a.symbol.length] ++ a.symbol) 4 = a.user_id := by
    show 2 ^ 24 * (a.user_id / 2 ^ 24 % 256) + 2 ^ 16 * (a.user_id / 2 ^ 16 % 256)
        + 2 ^ 8 * (a.user_id / 2 ^ 8 % 256) + a.user_id % 256 = a.user_id
    omega
  have hri : readU32 ([WireOutputType.CancelAck.toU8, PROTOCOL_VERSION, 0, 0]
      ++ toBE32 a.user_id ++ toBE32 a.user_order_id
      ++ [a.symbol.length] ++ a.symbol) 8 = a.user_order_id := by
    show 2 ^ 24 * (a.user_order_id / 2 ^ 24 % 256) + 2 ^ 16 * (a.user_order_id / 2 ^ 16 % 256)
        + 2 ^ 8 * (a.user_order_id / 2 ^ 8 % 256) + a.user_order_id % 256 = a.user_order_id
    omega
  have hsl : byteAt ([WireOutputType.CancelAck.toU8, PROTOCOL_VERSION, 0, 0]
      ++ toBE32 a.user_id ++ toBE32 a.user_order_id
      ++ [a.symbol.length] ++ a.symbol) 12 = a.symbol.length := rfl
  rw [hru, hri, hsl, validate_symbol_len_true _ hl1 hl2]
  simp only [Bool.not_true, Bool.false_or]
  rw [if_neg (by simp only [decide_eq_true_eq]; omega)]
  have hslice : listSlice ([WireOutputType.CancelAck.toU8, PROTOCOL_VERSION, 0, 0]
      ++ toBE32 a.user_id ++ toBE32 a.user_order_id
      ++ [a.symbol.length] ++ a.symbol) 13 (13 + a.symbol.length) = a.symbol := by
    have hform : ([WireOutputType.CancelAck.toU8, PROTOCOL_VERSION, 0, 0]
        ++ toBE32 a.user_id ++ toBE32 a.user_order_id
        ++ [a.symbol.length] ++ a.symbol)
        = ([WireOutputType.CancelAck.toU8, PROTOCOL_VERSION, 0, 0]
          ++ toBE32 a.user_id ++ toBE32 a.user_order_id ++ [a.symbol.length]) ++ a.symbol := by
      simp [List.append_assoc]
    rw [hform]
    exact listSlice_exact _ _ 13 (by simp [toBE32]; try omega)
  rw [hslice, strFromUtf8_of_valid _ hutf]

theorem readU32_toBE32_exact (n : Nat) (hn : n < 2 ^ 32) :
    readU32 (toBE32 n) 0 = n := by
  show 2 ^ 24 * (n / 2 ^ 24 % 256) + 2 ^ 16 * (n / 2 ^ 16 % 256)
      + 2 ^ 8 * (n / 2 ^ 8 % 256) + n % 256 = n
  omega

theorem listSlice_mid (l1 s rest : List Nat) (n : Nat) (h : l1.length = n) :
    listSlice (l1 ++ (s ++ rest)) n (n + s.length) = s := by
  subst h
  rw [listSlice, List.drop_left, Nat.add_sub_cancel_left]
  exact List.take_left s rest

theorem decode_encode_trade (t : Trade) (hb1 : t.user_id_buy < 2 ^ 32)
    (hb2 : t.user_order_id_buy < 2 ^ 32) (hb3 : t.user_id_sell < 2 ^ 32)
    (hb4 : t.user_order_id_sell < 2 ^ 32) (hb5 : t.price < 2 ^ 32)
    (hb6 : t.quantity < 2 ^ 32) (hsym : symbolWF t.symbol = true) :
    ∃ bytes, encode_output (OutputMessage.Trade t) = Except.ok bytes
      ∧ decode_output bytes = Except.ok (OutputMessage.Trade t) := by
  simp only [symbolWF, Bool.and_eq_true, decide_eq_true_eq] at hsym
  obtain ⟨⟨hl1, hl2⟩, hutf⟩ := hsym
  have henc : encode_output (OutputMessage.Trade t)
      = Except.ok ([WireOutputType.Trade.toU8, PROTOCOL_VERSION, 0, 0] ++ [t.symbol.length] ++ t.symbol
      ++ toBE32 t.user_id_buy ++ toBE32 t.user_order_id_buy ++ toBE32 t.user_id_sell
      ++ toBE32 t.user_order_id_sell ++ toBE32 t.price ++ toBE32 t.quantity) := by
    simp only [encode_output, encode_trade]
    rw [if_neg]
    simp only [Bool.or_eq_true, not_or, List.isEmpty_eq_true, decide_eq_true_eq]
    exact ⟨fun hcon => by rw [hcon] at hl1; simp at hl1, by simp only [MAX_SYMBOL_LEN]; omega⟩
  refine ⟨_, henc, ?_⟩
  have hlen : (([WireOutputType.Trade.toU8, PROTOCOL_VERSION, 0, 0] ++ [t.symbol.length] ++ t.symbol
      ++ toBE32 t.user_id_buy ++ toBE32 t.user_order_id_buy ++ toBE32 t.user_id_sell
      ++ toBE32 t.user_order_id_sell ++ toBE32 t.price ++ toBE32 t.quantity) : List Nat).length = 29 + t.symbol.length := by
    simp [toBE32]
    try omega
  simp only [decode_output, decode_trade]
  rw [hlen, if_neg (by omega)]
  have hver : byteAt ([WireOutputType.Trade.toU8, PROTOCOL_VERSION, 0, 0] ++ [t.symbol.length] ++ t.symbol
      ++ toBE32 t.user_id_buy ++ toBE32 t.user_order_id_buy ++ toBE32 t.user_id_sell
      ++ toBE32 t.user_order_id_sell ++ toBE32 t.price ++ toBE32 t.quantity) 1 = PROTOCOL_VERSION := rfl
  rw [hver, if_neg (by simp)]
  have htype : WireOutputType.from_u8 (byteAt ([WireOutputType.Trade.toU8, PROTOCOL_VERSION, 0, 0] ++ [t.symbol.length] ++ t.symbol
      ++ toBE32 t.user_id_buy ++ toBE32 t.user_order_id_buy ++ toBE32 t.user_id_sell
      ++ toBE32 t.user_order_id_sell ++ toBE32 t.price ++ toBE32 t.quantity) 0) = some WireOutputType.Trade := rfl
  rw [htype]
  simp only []
  rw [if_neg (show ¬(29 + t.symbol.length < 5) by omega)]
  have hsl : byteAt ([WireOutputType.Trade.toU8, PROTOCOL_VERSION, 0, 0] ++ [t.symbol.length] ++ t.symbol
      ++ toBE32 t.user_id_buy ++ toBE32 t.user_order_id_buy ++ toBE32 t.user_id_sell
      ++ toBE32 t.user_order_id_sell ++ toBE32 t.price ++ toBE32 t.quantity) 4 = t.symbol.length := rfl
  rw [hsl, validate_symbol_len_true _ hl1 hl2]
  simp only [Bool.not_true, Bool.false_eq_true, if_false, ite_false]
  rw [if_neg (by omega)]
  have hslice : listSlice ([WireOutputType.Trade.toU8, PROTOCOL_VERSION, 0, 0] ++ [t.symbol.length] ++ t.symbol
      ++ toBE32 t.user_id_buy ++ toBE32 t.user_order_id_buy ++ toBE32 t.user_id_sell
      ++ toBE32 t.user_order_id_sell ++ toBE32 t.price ++ toBE32 t.quantity) 5 (5 + t.symbol.length) = t.symbol := by
    have hform : ([WireOutputType.Trade.toU8, PROTOCOL_VERSION, 0, 0] ++ [t.symbol.length] ++ t.symbol
      ++ toBE32 t.user_id_buy ++ toBE32 t.user_order_id_buy ++ toBE32 t.user_id_sell
      ++ toBE32 t.user_order_id_sell ++ toBE32 t.price ++ toBE32 t.quantity)
        = ([WireOutputType.Trade.toU8, PROTOCOL_VERSION, 0, 0] ++ [t.symbol.length])
          ++ (t.symbol ++ (toBE32 t.user_id_buy ++ toBE32 t.user_order_id_buy
            ++ toBE32 t.user_id_sell ++ toBE32 t.user_order_id_sell ++ toBE32 t.price
            ++ toBE32 t.quantity)) := by
      simp [List.append_assoc]
    rw [hform]
    exact listSlice_mid _ _ _ 5 (by simp)
  rw [hslice, strFromUtf8_of_valid _ hutf]
  simp only []
  have hr1 : readU32 ([WireOutputType.Trade.toU8, PROTOCOL_VERSION, 0, 0] ++ [t.symbol.length] ++ t.symbol
      ++ toBE32 t.user_id_buy ++ toBE32 t.user_order_id_buy ++ toBE32 t.user_id_sell
      ++ toBE32 t.user_order_id_sell ++ toBE32 t.price ++ toBE32 t.quantity) (5 + t.symbol.length) = t.user_id_buy := by
    rw [show ([WireOutputType.Trade.toU8, PROTOCOL_VERSION, 0, 0] ++ [t.symbol.length] ++ t.symbol
      ++ toBE32 t.user_id_buy ++ toBE32 t.user_order_id_buy ++ toBE32 t.user_id_sell
      ++ toBE32 t.user_order_id_sell ++ toBE32 t.price ++ toBE32 t.quantity)
        = (([WireOutputType.Trade.toU8, PROTOCOL_VERSION, 0, 0] ++ [t.symbol.length] ++ t.symbol))
          ++ (toBE32 t.user_id_buy ++ (toBE32 t.user_order_id_buy ++ (toBE32 t.user_id_sell
        ++ (toBE32 t.user_order_id_sell ++ (toBE32 t.price ++ toBE32 t.quantity))))) from by simp [List.append_assoc]]
    rw [readU32_append_start _ _ _ (by simp [toBE32]; try omega)]
    exact readU32_toBE32_first _ hb1 _
  have hr2 : readU32 ([WireOutputType.Trade.toU8, PROTOCOL_VERSION, 0, 0] ++ [t.symbol.length] ++ t.symbol
      ++ toBE32 t.user_id_buy ++ toBE32 t.user_order_id_buy ++ toBE32 t.user_id_sell
      ++ toBE32 t.user_order_id_sell ++ toBE32 t.price ++ toBE32 t.quantity) (5 + t.symbol.length + 4) = t.user_order_id_buy := by
    rw [show ([WireOutputType.Trade.toU8, PROTOCOL_VERSION, 0, 0] ++ [t.symbol.length] ++ t.symbol
      ++ toBE32 t.user_id_buy ++ toBE32 t.user_order_id_buy ++ toBE32 t.user_id_sell
      ++ toBE32 t.user_order_id_sell ++ toBE32 t.price ++ toBE32 t.quantity)
        = (([WireOutputType.Trade.toU8, PROTOCOL_VERSION, 0, 0] ++ [t.symbol.length] ++ t.symbol
        ++ toBE32 t.user_id_buy))
          ++ (toBE32 t.user_order_id_buy ++ (toBE32 t.user_id_sell
        ++ (toBE32 t.user_order_id_sell ++ (toBE32 t.price ++ toBE32 t.quantity)))) from by simp [List.append_assoc]]
    rw [readU32_append_start _ _ _ (by simp [toBE32]; try omega)]
    exact readU32_toBE32_first _ hb2 _
  have hr3 : readU32 ([WireOutputType.Trade.toU8, PROTOCOL_VERSION, 0, 0] ++ [t.symbol.length] ++ t.symbol
      ++ toBE32 t.user_id_buy ++ toBE32 t.user_order_id_buy ++ toBE32 t.user_id_sell
      ++ toBE32 t.user_order_id_sell ++ toBE32 t.price ++ toBE32 t.quantity) (5 + t.symbol.length + 8) = t.user_id_sell := by
    rw [show ([WireOutputType.Trade.toU8, PROTOCOL_VERSION, 0, 0] ++ [t.symbol.length] ++ t.symbol
      ++ toBE32 t.user_id_buy ++ toBE32 t.user_order_id_buy ++ toBE32 t.user_id_sell
      ++ toBE32 t.user_order_id_sell ++ toBE32 t.price ++ toBE32 t.quantity)
        = (([WireOutputType.Trade.toU8, PROTOCOL_VERSION, 0, 0] ++ [t.symbol.length] ++ t.symbol
        ++ toBE32 t.user_id_buy ++ toBE32 t.user_order_id_buy))
          ++ (toBE32 t.user_id_sell ++ (toBE32 t.user_order_id_sell ++ (toBE32 t.price ++ toBE32 t.quantity))) from by simp [List.append_assoc]]
    rw [readU32_append_start _ _ _ (by simp [toBE32]; try omega)]
    exact readU32_toBE32_first _ hb3 _
  have hr4 : readU32 ([WireOutputType.Trade.toU8, PROTOCOL_VERSION, 0, 0] ++ [t.symbol.length] ++ t.symbol
      ++ toBE32 t.user_id_buy ++ toBE32 t.user_order_id_buy ++ toBE32 t.user_id_sell
      ++ toBE32 t.user_order_id_sell ++ toBE32 t.price ++ toBE32 t.quantity) (5 + t.symbol.length + 12) = t.user_order_id_sell := by
    rw [show ([WireOutputType.Trade.toU8, PROTOCOL_VERSION, 0, 0] ++ [t.symbol.length] ++ t.symbol
      ++ toBE32 t.user_id_buy ++ toBE32 t.user_order_id_buy ++ toBE32 t.user_id_sell
      ++ toBE32 t.user_order_id_sell ++ toBE32 t.price ++ toBE32 t.quantity)
        = (([WireOutputType.Trade.toU8, PROTOCOL_VERSION, 0, 0] ++ [t.symbol.length] ++ t.symbol
        ++ toBE32 t.user_id_buy ++ toBE32 t.user_order_id_buy ++ toBE32 t.user_id_sell))
          ++ (toBE32 t.user_order_id_sell ++ (toBE32 t.price ++ toBE32 t.quantity)) from by simp [List.append_assoc]]
    rw [readU32_append_start _ _ _ (by simp [toBE32]; try omega)]
    exact readU32_toBE32_first _ hb4 _
  have hr5 : readU32 ([WireOutputType.Trade.toU8, PROTOCOL_VERSION, 0, 0] ++ [t.symbol.length] ++ t.symbol
      ++ toBE32 t.user_id_buy ++ toBE32 t.user_order_id_buy ++ toBE32 t.user_id_sell
      ++ toBE32 t.user_order_id_sell ++ toBE32 t.price ++ toBE32 t.quantity) (5 + t.symbol.length + 16) = t.price := by
    rw [show ([WireOutputType.Trade.toU8, PROTOCOL_VERSION, 0, 0] ++ [t.symbol.length] ++ t.symbol
      ++ toBE32 t.user_id_buy ++ toBE32 t.user_order_id_buy ++ toBE32 t.user_id_sell
      ++ toBE32 t.user_order_id_sell ++ toBE32 t.price ++ toBE32 t.quantity)
        = (([WireOutputType.Trade.toU8, PROTOCOL_VERSION, 0, 0] ++ [t.symbol.length] ++ t.symbol
        ++ toBE32 t.user_id_buy ++ toBE32 t.user_order_id_buy ++ toBE32 t.user_id_sell
        ++ toBE32 t.user_order_id_sell))
          ++ (toBE32 t.price ++ toBE32 t.quantity) from by simp [List.append_assoc]]
    rw [readU32_append_start _ _ _ (by simp [toBE32]; try omega)]
    exact readU32_toBE32_first _ hb5 _
  have hr6 : readU32 ([WireOutputType.Trade.toU8, PROTOCOL_VERSION, 0, 0] ++ [t.symbol.length] ++ t.symbol
      ++ toBE32 t.user_id_buy ++ toBE32 t.user_order_id_buy ++ toBE32 t.user_id_sell
      ++ toBE32 t.user_order_id_sell ++ toBE32 t.price ++ toBE32 t.quantity) (5 + t.symbol.length + 20) = t.quantity := by
    rw [show ([WireOutputType.Trade.toU8, PROTOCOL_VERSION, 0, 0] ++ [t.symbol.length] ++ t.symbol
      ++ toBE32 t.user_id_buy ++ toBE32 t.user_order_id_buy ++ toBE32 t.user_id_sell
      ++ toBE32 t.user_order_id_sell ++ toBE32 t.price ++ toBE32 t.quantity)
        = ([WireOutputType.Trade.toU8, PROTOCOL_VERSION, 0, 0] ++ [t.symbol.length] ++ t.symbol
        ++ toBE32 t.user_id_buy ++ toBE32 t.user_order_id_buy ++ toBE32 t.user_id_sell
        ++ toBE32 t.user_order_id_sell ++ toBE32 t.price)
          ++ toBE32 t.quantity from by simp [List.append_assoc]]
    rw [readU32_append_start _ _ _ (by simp [toBE32]; try omega)]
    exact readU32_toBE32_exact _ hb6
  rw [hr1, hr2, hr3, hr4, hr5, hr6]

theorem byteAt_append_at (l1 l2 : List Nat) (n i : Nat) (h : l1.length = n) :
    byteAt (l1 ++ l2) (n + i) = byteAt l2 i := by
  subst h
  have hle : l1.length ≤ l1.length + i := Nat.le_add_right _ _
  simp [byteAt, List.getD, List.getElem?_append_right hle]

theorem elim_byte_roundtrip (e : Bool) : ((if e then (1 : Nat) else 0) != 0) = e := by
  cases e <;> rfl

theorem decode_encode_top_of_book (t : TopOfBook) (hp : t.price < 2 ^ 32)
    (hq : t.total_quantity < 2 ^ 32) (hsym : symbolWF t.symbol = true) :
    ∃ bytes, encode_output (OutputMessage.TopOfBook t) = Except.ok bytes
      ∧ decode_output bytes = Except.ok (OutputMessage.TopOfBook t) := by
  simp only [symbolWF, Bool.and_eq_true, decide_eq_true_eq] at hsym
  obtain ⟨⟨hl1, hl2⟩, hutf⟩ := hsym
  have henc : encode_output (OutputMessage.TopOfBook t)
      = Except.ok ([WireOutputType.TopOfBook.toU8, PROTOCOL_VERSION, 0, 0] ++ [t.symbol.length] ++ t.symbol
      ++ [sideToByte t.side, if t.eliminated then 1 else 0]
      ++ toBE32 t.price ++ toBE32 t.total_quantity) := by
    simp only [encode_output, encode_top_of_book]
    rw [if_neg]
    simp only [Bool.or_eq_true, not_or, List.isEmpty_eq_true, decide_eq_true_eq]
    exact ⟨fun hcon => by rw [hcon] at hl1; simp at hl1, by simp only [MAX_SYMBOL_LEN]; omega⟩
  refine ⟨_, henc, ?_⟩
  have hlen : (([WireOutputType.TopOfBook.toU8, PROTOCOL_VERSION, 0, 0] ++ [t.symbol.length] ++ t.symbol
      ++ [sideToByte t.side, if t.eliminated then 1 else 0]
      ++ toBE32 t.price ++ toBE32 t.total_quantity) : List Nat).length = 15 + t.symbol.length := by
    simp [toBE32]
    try omega
  simp only [decode_output, decode_top_of_book]
  rw [hlen, if_neg (by omega)]
  have hver : byteAt ([WireOutputType.TopOfBook.toU8, PROTOCOL_VERSION, 0, 0] ++ [t.symbol.length] ++ t.symbol
      ++ [sideToByte t.side, if t.eliminated then 1 else 0]
      ++ toBE32 t.price ++ toBE32 t.total_quantity) 1 = PROTOCOL_VERSION := rfl
  rw [hver, if_neg (by simp)]
  have htype : WireOutputType.from_u8 (byteAt ([WireOutputType.TopOfBook.toU8, PROTOCOL_VERSION, 0, 0] ++ [t.symbol.length] ++ t.symbol
      ++ [sideToByte t.side, if t.eliminated then 1 else 0]
      ++ toBE32 t.price ++ toBE32 t.total_quantity) 0)
      = some WireOutputType.TopOfBook := rfl
  rw [htype]
  simp only []
  rw [if_neg (show ¬(15 + t.symbol.length < 5) by omega)]
  have hsl : byteAt ([WireOutputType.TopOfBook.toU8, PROTOCOL_VERSION, 0, 0] ++ [t.symbol.length] ++ t.symbol
      ++ [sideToByte t.side, if t.eliminated then 1 else 0]
      ++ toBE32 t.price ++ toBE32 t.total_quantity) 4 = t.symbol.length := rfl
  rw [hsl, validate_symbol_len_true _ hl1 hl2]
  simp only [Bool.not_true, Bool.false_eq_true, if_false, ite_false]
  rw [if_neg (by omega)]
  have hslice : listSlice ([WireOutputType.TopOfBook.toU8, PROTOCOL_VERSION, 0, 0] ++ [t.symbol.length] ++ t.symbol
      ++ [sideToByte t.side, if t.eliminated then 1 else 0]
      ++ toBE32 t.price ++ toBE32 t.total_quantity) 5 (5 + t.symbol.length) = t.symbol := by
    have hform : ([WireOutputType.TopOfBook.toU8, PROTOCOL_VERSION, 0, 0] ++ [t.symbol.length] ++ t.symbol
      ++ [sideToByte t.side, if t.eliminated then 1 else 0]
      ++ toBE32 t.price ++ toBE32 t.total_quantity)
        = ([WireOutputType.TopOfBook.toU8, PROTOCOL_VERSION, 0, 0] ++ [t.symbol.length])
          ++ (t.symbol ++ ([sideToByte t.side, if t.eliminated then 1 else 0]
            ++ toBE32 t.price ++ toBE32 t.total_quantity)) := by
      simp [List.append_assoc]
    rw [hform]
    exact listSlice_mid _ _ _ 5 (by simp; try omega)
  rw [hslice, strFromUtf8_of_valid _ hutf]
  simp only []
  have hside : byteAt ([WireOutputType.TopOfBook.toU8, PROTOCOL_VERSION, 0, 0] ++ [t.symbol.length] ++ t.symbol
      ++ [sideToByte t.side, if t.eliminated then 1 else 0]
      ++ toBE32 t.price ++ toBE32 t.total_quantity) (5 + t.symbol.length) = sideToByte t.side := by
    rw [show ([WireOutputType.TopOfBook.toU8, PROTOCOL_VERSION, 0, 0] ++ [t.symbol.length] ++ t.symbol
      ++ [sideToByte t.side, if t.eliminated then 1 else 0]
      ++ toBE32 t.price ++ toBE32 t.total_quantity)
        = ([WireOutputType.TopOfBook.toU8, PROTOCOL_VERSION, 0, 0] ++ [t.symbol.length]
          ++ t.symbol)
          ++ ([sideToByte t.side, if t.eliminated then 1 else 0]
            ++ (toBE32 t.price ++ toBE32 t.total_quantity)) from by simp [List.append_assoc]]
    rw [byteAt_append_start _ _ _ (by simp; try omega)]
    rfl
  have helim : byteAt ([WireOutputType.TopOfBook.toU8, PROTOCOL_VERSION, 0, 0] ++ [t.symbol.length] ++ t.symbol
      ++ [sideToByte t.side, if t.eliminated then 1 else 0]
      ++ toBE32 t.price ++ toBE32 t.total_quantity) (5 + t.symbol.length + 1)
      = (if t.eliminated then 1 else 0) := by
    rw [show ([WireOutputType.TopOfBook.toU8, PROTOCOL_VERSION, 0, 0] ++ [t.symbol.length] ++ t.symbol
      ++ [sideToByte t.side, if t.eliminated then 1 else 0]
      ++ toBE32 t.price ++ toBE32 t.total_quantity)
        = ([WireOutputType.TopOfBook.toU8, PROTOCOL_VERSION, 0, 0] ++ [t.symbol.length]
          ++ t.symbol)
          ++ ([sideToByte t.side, if t.eliminated then 1 else 0]
            ++ (toBE32 t.price ++ toBE32 t.total_quantity)) from by simp [List.append_assoc]]
    rw [byteAt_append_at _ _ (5 + t.symbol.length) 1 (by simp; try omega)]
    rfl
  have hrp : readU32 ([WireOutputType.TopOfBook.toU8, PROTOCOL_VERSION, 0, 0] ++ [t.symbol.length] ++ t.symbol
      ++ [sideToByte t.side, if t.eliminated then 1 else 0]
      ++ toBE32 t.price ++ toBE32 t.total_quantity) (5 + t.symbol.length + 2) = t.price := by
    rw [show ([WireOutputType.TopOfBook.toU8, PROTOCOL_VERSION, 0, 0] ++ [t.symbol.length] ++ t.symbol
      ++ [sideToByte t.side, if t.eliminated then 1 else 0]
      ++ toBE32 t.price ++ toBE32 t.total_quantity)
        = ([WireOutputType.TopOfBook.toU8, PROTOCOL_VERSION, 0, 0] ++ [t.symbol.length]
          ++ t.symbol ++ [sideToByte t.side, if t.eliminated then 1 else 0])
          ++ (toBE32 t.price ++ toBE32 t.total_quantity) from by simp [List.append_assoc]]
    rw [readU32_append_start _ _ _ (by simp; try omega)]
    exact readU32_toBE32_first _ hp _
  have hrq : readU32 ([WireOutputType.TopOfBook.toU8, PROTOCOL_VERSION, 0, 0] ++ [t.symbol.length] ++ t.symbol
      ++ [sideToByte t.side, if t.eliminated then 1 else 0]
      ++ toBE32 t.price ++ toBE32 t.total_quantity) (5 + t.symbol.length + 6) = t.total_quantity := by
    rw [show ([WireOutputType.TopOfBook.toU8, PROTOCOL_VERSION, 0, 0] ++ [t.symbol.length] ++ t.symbol
      ++ [sideToByte t.side, if t.eliminated then 1 else 0]
      ++ toBE32 t.price ++ toBE32 t.total_quantity)
        = ([WireOutputType.TopOfBook.toU8, PROTOCOL_VERSION, 0, 0] ++ [t.symbol.length]
          ++ t.symbol ++ [sideToByte t.side, if t.eliminated then 1 else 0]
          ++ toBE32 t.price)
          ++ toBE32 t.total_quantity from by simp [List.append_assoc]]
    rw [readU32_append_start _ _ _ (by simp [toBE32]; try omega)]
    exact readU32_toBE32_exact _ hq
  rw [hside, sideFromByte_sideToByte]
  simp only []
  rw [helim, hrp, hrq, elim_byte_roundtrip]

/-- C6: codec round trip — for every well-formed input message (`u32` fields
in range, positive quantity on a new order, symbol of 1 to 32 bytes of valid
UTF-8) encoding succeeds and decoding the produced bytes returns the same
message; likewise for every well-formed output message. -/
theorem codec_round_trip :
    (∀ m : InputMessage, m.wf = true →
      ∃ bytes, encode_input m = Except.ok bytes ∧ decode_input bytes = Except.ok m)
    ∧ (∀ m : OutputMessage, m.wf = true →
      ∃ bytes, encode_output m = Except.ok bytes ∧ decode_output bytes = Except.ok m) := by
  constructor
  · intro m hwf
    cases m with
    | NewOrder n => exact decode_encode_new_order n hwf
    | Cancel c =>
      simp only [InputMessage.wf, Bool.and_eq_true, decide_eq_true_eq] at hwf
      exact decode_encode_cancel c hwf.1 hwf.2
    | Flush => exact decode_encode_flush
    | QueryTopOfBook q => exact decode_encode_query_tob q hwf
  · intro m hwf
    cases m with
    | Ack a =>
      simp only [OutputMessage.wf, Bool.and_eq_true, decide_eq_true_eq] at hwf
      exact decode_encode_ack a hwf.1.1 hwf.1.2 hwf.2
    | CancelAck c =>
      simp only [OutputMessage.wf, Bool.and_eq_true, decide_eq_true_eq] at hwf
      exact decode_encode_cancel_ack c hwf.1.1 hwf.1.2 hwf.2
    | Trade t =>
      simp only [OutputMessage.wf, Bool.and_eq_true, decide_eq_true_eq] at hwf
      exact decode_encode_trade t hwf.1.1.1.1.1.1 hwf.1.1.1.1.1.2 hwf.1.1.1.1.2
        hwf.1.1.1.2 hwf.1.1.2 hwf.1.2 hwf.2
    | TopOfBook t =>
      simp only [OutputMessage.wf, Bool.and_eq_true, decide_eq_true_eq] at hwf
      exact decode_encode_top_of_book t hwf.1.1 hwf.1.2 hwf.2

theorem codec_round_trip_witness :
    (∃ bytes, encode_input (InputMessage.NewOrder ⟨1, ibmSymbol, 10, 100, Side.Buy, 7⟩)
        = Except.ok bytes
      ∧ decode_input bytes
        = Except.ok (InputMessage.NewOrder ⟨1, ibmSymbol, 10, 100, Side.Buy, 7⟩))
    ∧ (∃ bytes, encode_output (OutputMessage.Trade ⟨ibmSymbol, 1, 2, 3, 4, 10, 100⟩)
        = Except.ok bytes
      ∧ decode_output bytes
        = Except.ok (OutputMessage.Trade ⟨ibmSymbol, 1, 2, 3, 4, 10, 100⟩)) :=
  ⟨codec_round_trip.1 (InputMessage.NewOrder ⟨1, ibmSymbol, 10, 100, Side.Buy, 7⟩)
      (by decide),
   codec_round_trip.2 (OutputMessage.Trade ⟨ibmSymbol, 1, 2, 3, 4, 10, 100⟩) (by decide)⟩
